import Mathlib

/-!
Verification development for the `trevilleroofing` company-summary dashboard.

The definitions below are a shallow embedding of the TypeScript sources:

* `src/company-summary/src/components/CompanyTable.tsx` — CSV row transform
  (`transformCSVToCompany`), the filter/sort view-model
  (`filteredAndSortedCompanies`), the cell-edit overlay
  (`handleValueChange`/`handleRevert`), state initializers, and CSV export
  (`exportToCSV`).
* the credential check `validateCredentials`.

JavaScript host primitives (`JSON.parse`, `Date` parsing and en-US short
formatting, `localeCompare`, `Map`, plain objects used as string-keyed maps)
are modelled explicitly; each model carries a doc comment stating the
modelling choice.  Machine integers do not occur: all numeric data in the
program is carried as strings, and JSON numeric literals are modelled as
integers (the data format uses none).
-/

/-- JSON values, as produced by `JSON.parse`. -/
inductive Json where
  | null : Json
  | bool : Bool → Json
  | num : Int → Json
  | str : String → Json
  | arr : List Json → Json
  | obj : List (String × Json) → Json

/-- The double-quote character. -/
def quoteChar : Char := Char.ofNat 34

/-- The backslash character. -/
def backslashChar : Char := Char.ofNat 92

/-- The opening curly bracket character. -/
def lcurlyChar : Char := Char.ofNat 123

/-- The closing curly bracket character. -/
def rcurlyChar : Char := Char.ofNat 125

/-- JSON insignificant whitespace: space, tab, line feed, carriage return. -/
def isJsonWs (c : Char) : Bool :=
  c = ' ' || c = Char.ofNat 9 || c = Char.ofNat 10 || c = Char.ofNat 13

/-- Drop leading JSON whitespace. -/
def skipWs (cs : List Char) : List Char := cs.dropWhile isJsonWs

/-- Single-character JSON string escapes (`\uXXXX` escapes are outside the
model; the data format does not use them). -/
def escChar (c : Char) : Option Char :=
  if c = quoteChar then some quoteChar
  else if c = backslashChar then some backslashChar
  else if c = '/' then some '/'
  else if c = 'n' then some (Char.ofNat 10)
  else if c = 't' then some (Char.ofNat 9)
  else if c = 'r' then some (Char.ofNat 13)
  else if c = 'b' then some (Char.ofNat 8)
  else if c = 'f' then some (Char.ofNat 12)
  else none

/-- Parse the body of a JSON string after the opening quote.  Returns the
decoded characters and the input remaining after the closing quote. -/
def parseStringBody : List Char → Option (List Char × List Char)
  | [] => none
  | c :: cs =>
    if c = quoteChar then some ([], cs)
    else if c = backslashChar then
      match cs with
      | [] => none
      | e :: cs2 =>
        match escChar e with
        | none => none
        | some ec =>
          match parseStringBody cs2 with
          | none => none
          | some (s, r) => some (ec :: s, r)
    else
      match parseStringBody cs with
      | none => none
      | some (s, r) => some (c :: s, r)

/-- Decimal digits to a natural number. -/
def digitsToNat (ds : List Char) : Nat :=
  ds.foldl (fun a c => a * 10 + (c.toNat - 48)) 0

/-- Parse a JSON numeric literal.  The model is restricted to integer
literals (the data format has no fractional or exponent parts); a fractional
or exponent continuation makes the parse fail. -/
def parseNumber (cs : List Char) : Option (Json × List Char) :=
  let p : Bool × List Char :=
    match cs with
    | c :: r => if c = '-' then (true, r) else (false, cs)
    | [] => (false, cs)
  let ds := p.snd.takeWhile Char.isDigit
  let rest := p.snd.dropWhile Char.isDigit
  if ds.isEmpty then none
  else
    let n : Int := (digitsToNat ds : Nat)
    let v := Json.num (if p.fst then -n else n)
    match rest with
    | c :: _ => if c = '.' || c = 'e' || c = 'E' then none else some (v, rest)
    | [] => some (v, rest)

/-- Parse a literal keyword such as `null`, `true`, `false`. -/
def parseLit (lit : String) (v : Json) (cs : List Char) : Option (Json × List Char) :=
  if lit.data.isPrefixOf cs then some (v, cs.drop lit.data.length) else none

mutual

/-- Fuel-indexed recursive-descent JSON value parser (model of `JSON.parse`). -/
def parseValue : Nat → List Char → Option (Json × List Char)
  | 0, _ => none
  | Nat.succ fuel, cs0 =>
    match skipWs cs0 with
    | [] => none
    | c :: rest =>
      if c = quoteChar then
        match parseStringBody rest with
        | some (s, r) => some (Json.str (String.mk s), r)
        | none => none
      else if c = '[' then
        match skipWs rest with
        | c2 :: r3 => if c2 = ']' then some (Json.arr [], r3)
                      else parseElems fuel (skipWs rest)
        | [] => none
      else if c = lcurlyChar then
        match skipWs rest with
        | c2 :: r3 => if c2 = rcurlyChar then some (Json.obj [], r3)
                      else parseFields fuel (skipWs rest)
        | [] => none
      else if c = 'n' then parseLit "null" Json.null (c :: rest)
      else if c = 't' then parseLit "true" (Json.bool true) (c :: rest)
      else if c = 'f' then parseLit "false" (Json.bool false) (c :: rest)
      else parseNumber (c :: rest)

/-- Parse a nonempty comma-separated element list followed by `]`,
returning the array value. -/
def parseElems : Nat → List Char → Option (Json × List Char)
  | 0, _ => none
  | Nat.succ fuel, cs =>
    match parseValue fuel cs with
    | none => none
    | some (v, r) =>
      match skipWs r with
      | c :: rr =>
        if c = ',' then
          match parseElems fuel rr with
          | some (Json.arr vs, r2) => some (Json.arr (v :: vs), r2)
          | _ => none
        else if c = ']' then some (Json.arr [v], rr)
        else none
      | [] => none

/-- Parse a nonempty comma-separated `"key": value` field list followed by
the closing curly bracket, returning the object value. -/
def parseFields : Nat → List Char → Option (Json × List Char)
  | 0, _ => none
  | Nat.succ fuel, cs =>
    match skipWs cs with
    | c :: rest =>
      if c = quoteChar then
        match parseStringBody rest with
        | none => none
        | some (k, r1) =>
          match skipWs r1 with
          | c2 :: r2 =>
            if c2 = ':' then
              match parseValue fuel r2 with
              | none => none
              | some (v, r3) =>
                match skipWs r3 with
                | c3 :: r4 =>
                  if c3 = ',' then
                    match parseFields fuel r4 with
                    | some (Json.obj fs, r5) => some (Json.obj ((String.mk k, v) :: fs), r5)
                    | _ => none
                  else if c3 = rcurlyChar then some (Json.obj [(String.mk k, v)], r4)
                  else none
                | [] => none
            else none
          | [] => none
      else none
    | [] => none

end

/-- Model of `JSON.parse`: `none` means the call throws a `SyntaxError`.
Restricted to the JSON subset the data format uses (no `\uXXXX` escapes,
integer numeric literals); on that subset it agrees with `JSON.parse`. -/
def jsonParse (s : String) : Option Json :=
  match parseValue (2 * s.data.length + 2) s.data with
  | some (v, r) => if (skipWs r).isEmpty then some v else none
  | none => none

mutual

/-- Model of JavaScript `String(x)` / `x.toString()` on JSON-shaped values:
booleans print as `true`/`false`, arrays join their elements with commas
(`null` elements print as the empty string), objects print as
`[object Object]`. -/
def jsToString : Json → String
  | Json.null => "null"
  | Json.bool b => if b then "true" else "false"
  | Json.num n => toString n
  | Json.str s => s
  | Json.arr xs => jsArrJoin xs
  | Json.obj _ => "[object Object]"

/-- Model of `Array.prototype.toString`: elements joined with `,`. -/
def jsArrJoin : List Json → String
  | [] => ""
  | [x] => jsElemStr x
  | x :: y :: xs => jsElemStr x ++ "," ++ jsArrJoin (y :: xs)

/-- Stringification of one array element inside a join: `null` becomes
the empty string. -/
def jsElemStr : Json → String
  | Json.null => ""
  | Json.bool b => if b then "true" else "false"
  | Json.num n => toString n
  | Json.str s => s
  | Json.arr xs => jsArrJoin xs
  | Json.obj _ => "[object Object]"

end

/-- Lookup of a key in a parsed JSON object; duplicate keys resolve to the
last occurrence, as in `JSON.parse`. -/
def jsField (fields : List (String × Json)) (k : String) : Option Json :=
  fields.foldl (fun acc p => if p.fst = k then some p.snd else acc) none

/-- Model of JavaScript property access `j.k` for non-`null` values: object
fields look up; primitive and array receivers yield `undefined` (`none`).
Access on `null` throws and is handled at each call site. -/
def jsFieldOf (j : Json) (k : String) : Option Json :=
  match j with
  | Json.obj fs => jsField fs k
  | _ => none

/-- JavaScript falsiness of a JSON value (`null`, `false`, `0`, `""`). -/
def jsFalsy : Json → Bool
  | Json.null => true
  | Json.bool b => !b
  | Json.num n => n = 0
  | Json.str s => s = ""
  | _ => false

/-- Model of `x || d` followed by the eventual stringification of the kept
value, for an optionally-present JSON value (`none` = `undefined`). -/
def jsOrDefault (v : Option Json) (d : String) : String :=
  match v with
  | none => d
  | some j => if jsFalsy j then d else jsToString j

/-- A calendar date, as held by a valid JavaScript `Date`. -/
structure JsDate where
  year : Nat
  month : Nat
  day : Nat
deriving DecidableEq, Repr

/-- Gregorian leap-year rule. -/
def isLeapYear (y : Nat) : Bool := (y % 4 = 0 && !(y % 100 = 0)) || y % 400 = 0

/-- Number of days in a month. -/
def daysInMonth (y m : Nat) : Nat :=
  if m = 2 then (if isLeapYear y then 29 else 28)
  else if m = 4 || m = 6 || m = 9 || m = 11 then 30 else 31

/-- Model of `new Date(s)` restricted to ISO `YYYY-MM-DD` date strings
(the format the CSV carries); `none` is an Invalid Date.  The ECMAScript
parser accepts further formats that are outside this model; inputs that are
not dates in any ECMAScript format (such as `"not a date"`) are invalid both
in the model and in JavaScript.  Formatting is modelled in a UTC runtime. -/
def jsDateParse (s : String) : Option JsDate :=
  match s.data with
  | [y1, y2, y3, y4, h1, m1, m2, h2, d1, d2] =>
    if h1 = '-' && h2 = '-' && ([y1, y2, y3, y4, m1, m2, d1, d2].all Char.isDigit) then
      let y := digitsToNat [y1, y2, y3, y4]
      let m := digitsToNat [m1, m2]
      let d := digitsToNat [d1, d2]
      if 1 ≤ m && m ≤ 12 && 1 ≤ d && d ≤ daysInMonth y m then some ⟨y, m, d⟩ else none
    else none
  | _ => none

/-- en-US short month names. -/
def monthShortName (m : Nat) : String :=
  if m = 1 then "Jan" else if m = 2 then "Feb" else if m = 3 then "Mar"
  else if m = 4 then "Apr" else if m = 5 then "May" else if m = 6 then "Jun"
  else if m = 7 then "Jul" else if m = 8 then "Aug" else if m = 9 then "Sep"
  else if m = 10 then "Oct" else if m = 11 then "Nov" else "Dec"

/-- Model of `Date.prototype.toLocaleDateString("en-US", { year: "numeric",
month: "short", day: "numeric" })` on a valid date. -/
def toLocaleDateStringShort (d : JsDate) : String :=
  monthShortName d.month ++ " " ++ toString d.day ++ ", " ++ toString d.year

/-- The date branch of the transform
(`CompanyTable.tsx` lines 622-633).  The source wraps this in `try`/`catch`
returning the raw string, but neither the `Date` constructor nor
`toLocaleDateString` throws in JavaScript: an unparseable string yields an
Invalid Date, which `toLocaleDateString` formats as the literal string
`"Invalid Date"`.  The `catch` branch is therefore unreachable and does not
appear in the model. -/
def formatInteractionDate (s : String) : String :=
  match jsDateParse s with
  | some d => toLocaleDateStringShort d
  | none => "Invalid Date"

/-! ## The data model: CSV rows and company records -/

/-- One raw CSV row, fields as delivered by the CSV parser (interface
`CompanyCSV` in `CompanyTable.tsx`).  Optional columns are `Option String`
(`none` = `undefined`); `metrics` is `Option String` so that a missing
`metrics` column can be expressed (`JSON.parse(undefined)` throws). -/
structure CompanyCSV where
  company_name : String
  state : String
  investment_grade : String
  metrics : Option String
  website : Option String := none
  contact_info : Option String := none
  last_interaction_date : Option String := none
  last_interaction_id : Option String := none
  annual_average_employees_2020 : Option String := none
  annual_average_employees_2021 : Option String := none
  annual_average_employees_2022 : Option String := none
  annual_average_employees_2023 : Option String := none
  annual_average_employees_2024 : Option String := none
  total_hours_worked_2020 : Option String := none
  total_hours_worked_2021 : Option String := none
  total_hours_worked_2022 : Option String := none
  total_hours_worked_2023 : Option String := none
  total_hours_worked_2024 : Option String := none
deriving DecidableEq, Repr

/-- A transformed company record (interface `Company` in
`CompanyTable.tsx`): every field the transform always assigns, typed as the
interface declares them. -/
structure Company where
  company_name : String
  state : String
  investment_grade : String
  investment_grade_summary : String
  investment_grade_citations : List String
  est_annual_revenue : String
  est_annual_revenue_citations : List String
  est_yoy_growth : String
  est_yoy_growth_citations : List String
  pe_backed : String
  pe_backed_citations : List String
  can_accommodate_allocation : String
  can_accommodate_allocation_citations : List String
  good_reputation : String
  good_reputation_citations : List String
  website : String
  contact_info : String
  last_interaction_date : String
  last_interaction_id : String
  annual_average_employees_2020 : String
  annual_average_employees_2021 : String
  annual_average_employees_2022 : String
  annual_average_employees_2023 : String
  annual_average_employees_2024 : String
  total_hours_worked_2020 : String
  total_hours_worked_2021 : String
  total_hours_worked_2022 : String
  total_hours_worked_2023 : String
  total_hours_worked_2024 : String
deriving DecidableEq, Repr

/-- The 29 keys of `Company` (`keyof Company`), in the declaration order of
the `filters` state object. -/
inductive FieldKey where
  | company_name | state | investment_grade | investment_grade_summary
  | investment_grade_citations
  | est_annual_revenue | est_annual_revenue_citations
  | est_yoy_growth | est_yoy_growth_citations
  | pe_backed | pe_backed_citations
  | can_accommodate_allocation | can_accommodate_allocation_citations
  | good_reputation | good_reputation_citations
  | website | contact_info | last_interaction_date | last_interaction_id
  | annual_average_employees_2020 | annual_average_employees_2021
  | annual_average_employees_2022 | annual_average_employees_2023
  | annual_average_employees_2024
  | total_hours_worked_2020 | total_hours_worked_2021
  | total_hours_worked_2022 | total_hours_worked_2023
  | total_hours_worked_2024
deriving DecidableEq, Repr

/-- The value held in one cell of a record: a string or a string list. -/
inductive CellValue where
  | str : String → CellValue
  | list : List String → CellValue
deriving DecidableEq, Repr

/-- Dynamic field access `company[key]`. -/
def Company.get (c : Company) : FieldKey → CellValue
  | FieldKey.company_name => CellValue.str c.company_name
  | FieldKey.state => CellValue.str c.state
  | FieldKey.investment_grade => CellValue.str c.investment_grade
  | FieldKey.investment_grade_summary => CellValue.str c.investment_grade_summary
  | FieldKey.investment_grade_citations => CellValue.list c.investment_grade_citations
  | FieldKey.est_annual_revenue => CellValue.str c.est_annual_revenue
  | FieldKey.est_annual_revenue_citations => CellValue.list c.est_annual_revenue_citations
  | FieldKey.est_yoy_growth => CellValue.str c.est_yoy_growth
  | FieldKey.est_yoy_growth_citations => CellValue.list c.est_yoy_growth_citations
  | FieldKey.pe_backed => CellValue.str c.pe_backed
  | FieldKey.pe_backed_citations => CellValue.list c.pe_backed_citations
  | FieldKey.can_accommodate_allocation => CellValue.str c.can_accommodate_allocation
  | FieldKey.can_accommodate_allocation_citations => CellValue.list c.can_accommodate_allocation_citations
  | FieldKey.good_reputation => CellValue.str c.good_reputation
  | FieldKey.good_reputation_citations => CellValue.list c.good_reputation_citations
  | FieldKey.website => CellValue.str c.website
  | FieldKey.contact_info => CellValue.str c.contact_info
  | FieldKey.last_interaction_date => CellValue.str c.last_interaction_date
  | FieldKey.last_interaction_id => CellValue.str c.last_interaction_id
  | FieldKey.annual_average_employees_2020 => CellValue.str c.annual_average_employees_2020
  | FieldKey.annual_average_employees_2021 => CellValue.str c.annual_average_employees_2021
  | FieldKey.annual_average_employees_2022 => CellValue.str c.annual_average_employees_2022
  | FieldKey.annual_average_employees_2023 => CellValue.str c.annual_average_employees_2023
  | FieldKey.annual_average_employees_2024 => CellValue.str c.annual_average_employees_2024
  | FieldKey.total_hours_worked_2020 => CellValue.str c.total_hours_worked_2020
  | FieldKey.total_hours_worked_2021 => CellValue.str c.total_hours_worked_2021
  | FieldKey.total_hours_worked_2022 => CellValue.str c.total_hours_worked_2022
  | FieldKey.total_hours_worked_2023 => CellValue.str c.total_hours_worked_2023
  | FieldKey.total_hours_worked_2024 => CellValue.str c.total_hours_worked_2024

/-- The string key of a field, as used for the override and verification
maps (`cellEdits[company][key]`). -/
def fieldKey : FieldKey → String
  | FieldKey.company_name => "company_name"
  | FieldKey.state => "state"
  | FieldKey.investment_grade => "investment_grade"
  | FieldKey.investment_grade_summary => "investment_grade_summary"
  | FieldKey.investment_grade_citations => "investment_grade_citations"
  | FieldKey.est_annual_revenue => "est_annual_revenue"
  | FieldKey.est_annual_revenue_citations => "est_annual_revenue_citations"
  | FieldKey.est_yoy_growth => "est_yoy_growth"
  | FieldKey.est_yoy_growth_citations => "est_yoy_growth_citations"
  | FieldKey.pe_backed => "pe_backed"
  | FieldKey.pe_backed_citations => "pe_backed_citations"
  | FieldKey.can_accommodate_allocation => "can_accommodate_allocation"
  | FieldKey.can_accommodate_allocation_citations => "can_accommodate_allocation_citations"
  | FieldKey.good_reputation => "good_reputation"
  | FieldKey.good_reputation_citations => "good_reputation_citations"
  | FieldKey.website => "website"
  | FieldKey.contact_info => "contact_info"
  | FieldKey.last_interaction_date => "last_interaction_date"
  | FieldKey.last_interaction_id => "last_interaction_id"
  | FieldKey.annual_average_employees_2020 => "annual_average_employees_2020"
  | FieldKey.annual_average_employees_2021 => "annual_average_employees_2021"
  | FieldKey.annual_average_employees_2022 => "annual_average_employees_2022"
  | FieldKey.annual_average_employees_2023 => "annual_average_employees_2023"
  | FieldKey.annual_average_employees_2024 => "annual_average_employees_2024"
  | FieldKey.total_hours_worked_2020 => "total_hours_worked_2020"
  | FieldKey.total_hours_worked_2021 => "total_hours_worked_2021"
  | FieldKey.total_hours_worked_2022 => "total_hours_worked_2022"
  | FieldKey.total_hours_worked_2023 => "total_hours_worked_2023"
  | FieldKey.total_hours_worked_2024 => "total_hours_worked_2024"

/-- All 29 fields, in the key order of the `filters` state object literal
(the order `Object.entries` iterates). -/
def allFields : List FieldKey :=
  [FieldKey.company_name, FieldKey.state, FieldKey.investment_grade,
   FieldKey.investment_grade_summary, FieldKey.investment_grade_citations,
   FieldKey.est_annual_revenue, FieldKey.est_annual_revenue_citations,
   FieldKey.est_yoy_growth, FieldKey.est_yoy_growth_citations,
   FieldKey.pe_backed, FieldKey.pe_backed_citations,
   FieldKey.can_accommodate_allocation, FieldKey.can_accommodate_allocation_citations,
   FieldKey.good_reputation, FieldKey.good_reputation_citations,
   FieldKey.website, FieldKey.contact_info, FieldKey.last_interaction_date,
   FieldKey.last_interaction_id,
   FieldKey.annual_average_employees_2020, FieldKey.annual_average_employees_2021,
   FieldKey.annual_average_employees_2022, FieldKey.annual_average_employees_2023,
   FieldKey.annual_average_employees_2024,
   FieldKey.total_hours_worked_2020, FieldKey.total_hours_worked_2021,
   FieldKey.total_hours_worked_2022, FieldKey.total_hours_worked_2023,
   FieldKey.total_hours_worked_2024]

/-! ## The metrics map and the row transform -/

/-- Model of `Map.prototype.set` semantics on an insertion-ordered association list:
an existing key is updated in place, a new key is appended. -/
def mapSet (m : List (String × Json)) (k : String) (v : Json) : List (String × Json) :=
  if m.any (fun p => p.fst = k) then
    m.map (fun p => if p.fst = k then (k, v) else p)
  else m ++ [(k, v)]

/-- Model of `Map.prototype.get` (keys are unique by construction). -/
def mapGet (m : List (String × Json)) (k : String) : Option Json :=
  (m.find? (fun p => p.fst = k)).map (fun p => p.snd)

/-- Reads `metric.metric_name` as a map key, for one parsed metrics entry.  Only
an object entry with a string `metric_name` produces a key that the string
lookups of the transform can hit; entries whose `metric_name` is absent or
not a string are stored under keys (`undefined`, numbers, ...) that those
lookups never match, so the model skips them.  (`null` entries are handled
separately: property access on `null` throws.) -/
def metricNameOf (e : Json) : Option String :=
  match e with
  | Json.obj fs =>
    match jsField fs "metric_name" with
    | some (Json.str s) => some s
    | _ => none
  | _ => none

/-- The `metrics.forEach(metric => metricMap.set(metric.metric_name, metric))`
loop.  A `null` element makes the property access throw (`Except.error`). -/
def buildMetricMapGo (acc : List (String × Json)) : List Json → Except Unit (List (String × Json))
  | [] => Except.ok acc
  | e :: es =>
    match e with
    | Json.null => Except.error ()
    | _ =>
      match metricNameOf e with
      | some k => buildMetricMapGo (mapSet acc k e) es
      | none => buildMetricMapGo acc es

/-- Build the metric lookup map from the parsed `metrics` array. -/
def buildMetricMap (entries : List Json) : Except Unit (List (String × Json)) :=
  buildMetricMapGo [] entries

/-- Models `metricMap.get(name)?.metric?.toString() || 'Unknown'`: absent entry,
absent/`null`/`undefined` metric value, or empty stringification all fall
back to the sentinel. -/
def metricValueOf (mm : List (String × Json)) (name : String) : String :=
  match mapGet mm name with
  | none => "Unknown"
  | some e =>
    match jsFieldOf e "metric" with
    | none => "Unknown"
    | some Json.null => "Unknown"
    | some v => let s := jsToString v; if s = "" then "Unknown" else s

/-- Models `metricMap.get(name)?.metric === true ? 'Yes' : 'No'`. -/
def boolMetricOf (mm : List (String × Json)) (name : String) : String :=
  match mapGet mm name with
  | none => "No"
  | some e =>
    match jsFieldOf e "metric" with
    | some (Json.bool true) => "Yes"
    | _ => "No"

/-- Decode a citations value: `x || []` keeps an array, everything falsy
becomes the empty list.  Array elements are stringified per the declared
`string[]` format (a truthy non-array citations value is outside the data
format and outside the model). -/
def decodeCitations (v : Option Json) : List String :=
  match v with
  | some (Json.arr xs) => xs.map jsToString
  | _ => []

/-- Models `metricMap.get(name)?.citations || []`. -/
def citationsOf (mm : List (String × Json)) (name : String) : List String :=
  match mapGet mm name with
  | none => []
  | some e => decodeCitations (jsFieldOf e "citations")

/-- The metric-derived fields of a record, as read off the metric map
(`CompanyTable.tsx` lines 608-617).  Note the `good_reputation` field reads
the metric named `reputation`. -/
structure MetricFields where
  est_annual_revenue : String
  est_annual_revenue_citations : List String
  est_yoy_growth : String
  est_yoy_growth_citations : List String
  pe_backed : String
  pe_backed_citations : List String
  can_accommodate_allocation : String
  can_accommodate_allocation_citations : List String
  good_reputation : String
  good_reputation_citations : List String
deriving DecidableEq, Repr

/-- The metric names the transform looks up. -/
def expectedMetricNames : List String :=
  ["est_annual_revenue", "est_yoy_growth", "pe_backed",
   "can_accommodate_allocation", "reputation"]

/-- All metric-map lookups of the transform, bundled. -/
def metricFieldsOf (mm : List (String × Json)) : MetricFields where
  est_annual_revenue := metricValueOf mm "est_annual_revenue"
  est_annual_revenue_citations := citationsOf mm "est_annual_revenue"
  est_yoy_growth := metricValueOf mm "est_yoy_growth"
  est_yoy_growth_citations := citationsOf mm "est_yoy_growth"
  pe_backed := boolMetricOf mm "pe_backed"
  pe_backed_citations := citationsOf mm "pe_backed"
  can_accommodate_allocation := boolMetricOf mm "can_accommodate_allocation"
  can_accommodate_allocation_citations := citationsOf mm "can_accommodate_allocation"
  good_reputation := metricValueOf mm "reputation"
  good_reputation_citations := citationsOf mm "reputation"

/-- The `investment_grade` block of the transform (lines 587-599):
`JSON.parse` in a `try`; on a throw — unparseable text, or property access
on a parsed `null` — the raw cell value is kept as the grade and the summary
is emptied, while the citations keep their initial `[]`. -/
def gradeBlock (raw : String) : String × String × List String :=
  match jsonParse raw with
  | none => (raw, "", [])
  | some Json.null => (raw, "", [])
  | some g =>
    (jsOrDefault (jsFieldOf g "grade") "Unknown",
     jsOrDefault (jsFieldOf g "summary") "",
     decodeCitations (jsFieldOf g "citations"))

/-- The `JSON.parse(csvRow.metrics)` stage of the transform: `none` input
(`undefined`, a missing column) and unparseable text both throw. -/
def parsedMetrics (ms : Option String) : Except Unit Json :=
  match ms with
  | none => Except.error ()
  | some s =>
    match jsonParse s with
    | none => Except.error ()
    | some j => Except.ok j

/-- The call `metrics.forEach` requires an array; any other parse result makes the
call throw a `TypeError`. -/
def arrayEntries (j : Json) : Except Unit (List Json) :=
  match j with
  | Json.arr es => Except.ok es
  | _ => Except.error ()

/-- Assemble the record from the row and the metric map (the object literal
of lines 602-646). -/
def companyOfRow (csvRow : CompanyCSV) (mm : List (String × Json)) : Company :=
  let mf := metricFieldsOf mm
  let gb := gradeBlock csvRow.investment_grade
  {
      company_name := csvRow.company_name
      state := csvRow.state
      investment_grade := gb.fst
      investment_grade_summary := gb.snd.fst
      investment_grade_citations := gb.snd.snd
      est_annual_revenue := mf.est_annual_revenue
      est_annual_revenue_citations := mf.est_annual_revenue_citations
      est_yoy_growth := mf.est_yoy_growth
      est_yoy_growth_citations := mf.est_yoy_growth_citations
      pe_backed := mf.pe_backed
      pe_backed_citations := mf.pe_backed_citations
      can_accommodate_allocation := mf.can_accommodate_allocation
      can_accommodate_allocation_citations := mf.can_accommodate_allocation_citations
      good_reputation := mf.good_reputation
      good_reputation_citations := mf.good_reputation_citations
      website := csvRow.website.getD ""
      contact_info := csvRow.contact_info.getD ""
      last_interaction_date :=
        match csvRow.last_interaction_date with
        | none => ""
        | some s => if s = "" then "" else formatInteractionDate s
      last_interaction_id :=
        match csvRow.last_interaction_id with
        | none => ""
        | some s =>
          if s = "" then ""
          else ((s.replace (String.mk [quoteChar]) "").replace "," ", ")
      annual_average_employees_2020 := csvRow.annual_average_employees_2020.getD ""
      annual_average_employees_2021 := csvRow.annual_average_employees_2021.getD ""
      annual_average_employees_2022 := csvRow.annual_average_employees_2022.getD ""
      annual_average_employees_2023 := csvRow.annual_average_employees_2023.getD ""
      annual_average_employees_2024 := csvRow.annual_average_employees_2024.getD ""
      total_hours_worked_2020 := csvRow.total_hours_worked_2020.getD ""
      total_hours_worked_2021 := csvRow.total_hours_worked_2021.getD ""
      total_hours_worked_2022 := csvRow.total_hours_worked_2022.getD ""
      total_hours_worked_2023 := csvRow.total_hours_worked_2023.getD ""
      total_hours_worked_2024 := csvRow.total_hours_worked_2024.getD "" }

/-- Embeds `transformCSVToCompany` (`CompanyTable.tsx` lines 577-647), staged:
`JSON.parse(csvRow.metrics)` (line 578, unguarded — a missing cell gives
`JSON.parse(undefined)`, which also throws), the `forEach` map build, then
the record assembly.  `Except.error ()` models a thrown exception escaping
the function. -/
def transformCSVToCompany (csvRow : CompanyCSV) : Except Unit Company :=
  match parsedMetrics csvRow.metrics with
  | Except.error e => Except.error e
  | Except.ok mjson =>
    match arrayEntries mjson with
    | Except.error e => Except.error e
    | Except.ok entries =>
      match buildMetricMap entries with
      | Except.error e => Except.error e
      | Except.ok mm => Except.ok (companyOfRow csvRow mm)

/-- Models `results.data.map(transformCSVToCompany)` inside the `complete`
callback: one thrown transform aborts the whole mapping (the surrounding
fetch `catch` then leaves the table empty). -/
def loadCompanies : List CompanyCSV → Except Unit (List Company)
  | [] => Except.ok []
  | r :: rs => do
    let c ← transformCSVToCompany r
    let cs ← loadCompanies rs
    Except.ok (c :: cs)

/-! ## The edit/verify overlay -/

/-- A JavaScript plain object used as a string-keyed map, as an
insertion-ordered association list (keys unique on all reachable states). -/
abbrev ObjMap (α : Type) : Type := List (String × α)

/-- Object property read `o[k]`. -/
def objGet {α : Type} (m : ObjMap α) (k : String) : Option α :=
  (m.find? (fun p => p.fst = k)).map (fun p => p.snd)

/-- Spread-update `{...o, [k]: v}`: an existing key keeps its position and
takes the new value, a new key is appended. -/
def objSet {α : Type} (m : ObjMap α) (k : String) (v : α) : ObjMap α :=
  if m.any (fun p => p.fst = k) then
    m.map (fun p => if p.fst = k then (k, v) else p)
  else m ++ [(k, v)]

/-- Property deletion `delete o[k]`. -/
def objDelete {α : Type} (m : ObjMap α) (k : String) : ObjMap α :=
  m.filter (fun p => ¬ p.fst = k)

/-- The cell-edit override state `cellEdits`:
company name → field key → replacement text. -/
def Overrides : Type := ObjMap (ObjMap String)

/-- The verification-flag state `verifications`. -/
def VerMap : Type := ObjMap (ObjMap Bool)

/-- The lookup `cellEdits[companyName]?.[metricKey]`. -/
def editLookup (edits : Overrides) (companyName metricKey : String) : Option String :=
  match objGet edits companyName with
  | none => none
  | some inner => objGet inner metricKey

/-- Embeds `handleValueChange` (lines 458-466): nested spread-update. -/
def handleValueChange (edits : Overrides) (companyName metricKey newValue : String) : Overrides :=
  objSet edits companyName (objSet ((objGet edits companyName).getD []) metricKey newValue)

/-- Embeds `handleRevert` (lines 468-479): delete the one key; drop the company
entry when its override map becomes empty. -/
def handleRevert (edits : Overrides) (companyName metricKey : String) : Overrides :=
  match objGet edits companyName with
  | none => edits
  | some inner =>
    let inner2 := objDelete inner metricKey
    if inner2.isEmpty then objDelete edits companyName
    else objSet edits companyName inner2

/-- The value a metric cell displays (render, lines 855-858):
the override when present, the record's own value otherwise. -/
def displayedValue (edits : Overrides) (c : Company) (f : FieldKey) : String :=
  match editLookup edits c.company_name (fieldKey f) with
  | some v => v
  | none =>
    match c.get f with
    | CellValue.str s => s
    | CellValue.list xs => String.intercalate "," xs

/-! ## The filter/sort view-model -/

/-- Case-insensitive JavaScript `String.prototype.includes` test:
substring containment on the character lists. -/
def listContains (l p : List Char) : Bool :=
  if p.isPrefixOf l then true
  else
    match l with
    | [] => false
    | _ :: t => listContains t p

/-- Models `value.toLowerCase().includes(filterValue.toLowerCase())`.
`String.toLower` models `toLowerCase` (they agree on ASCII, which is all the
data format carries). -/
def strIncludes (s pat : String) : Bool :=
  listContains s.toLower.data pat.toLower.data

/-- The per-cell filter predicate (lines 679-683): list-valued cells match
when some element contains the filter text, string cells by containment. -/
def cellMatches (v : CellValue) (filterValue : String) : Bool :=
  match v with
  | CellValue.list xs => xs.any (fun item => strIncludes item filterValue)
  | CellValue.str s => strIncludes s filterValue

/-- The per-column filter texts (the `filters` state object; empty string =
no filter on that column). -/
def Filters : Type := FieldKey → String

/-- The filtering pass of `filteredAndSortedCompanies` (lines 676-686):
`Object.entries(filters)` iterated over all columns, each truthy filter
value narrowing the list. -/
def filterStep (filters : Filters) (companies : List Company) : List Company :=
  allFields.foldl
    (fun result f =>
      if filters f = "" then result
      else result.filter (fun c => cellMatches (c.get f) (filters f)))
    companies

/-- Sort direction. -/
inductive SortDir where
  | asc | desc
deriving DecidableEq, Repr

/-- The `sortStatus` state. -/
structure SortStatus where
  columnAccessor : FieldKey
  direction : SortDir
deriving DecidableEq, Repr

/-- The string a record contributes to the sort comparison (lines 689-692):
a list field is joined with spaces, a string field is itself (`|| ''` keeps
empty strings unchanged). -/
def sortKeyOf (c : Company) (f : FieldKey) : String :=
  match c.get f with
  | CellValue.str s => s
  | CellValue.list xs => String.intercalate " " xs

/-- The comparator passed to `Array.prototype.sort` (lines 688-696),
parameterized by `lc`, the model of
`String.prototype.localeCompare(·, undefined, { numeric: true })` — a host
primitive whose exact order is locale-data dependent.  Descending negates
the ascending comparison. -/
def jsComparator (lc : String → String → Int) (st : SortStatus) (a b : Company) : Int :=
  let comparison := lc (sortKeyOf a st.columnAccessor) (sortKeyOf b st.columnAccessor)
  match st.direction with
  | SortDir.asc => comparison
  | SortDir.desc => -comparison

/-- The sorting pass: ECMAScript `Array.prototype.sort` is required to be
stable, and for a consistent comparator the stable sorted permutation is
unique, so any stable sort is an exact model; insertion sort is used. -/
def sortStep (lc : String → String → Int) (st : SortStatus) (l : List Company) : List Company :=
  l.insertionSort (fun a b => jsComparator lc st a b ≤ 0)

/-- The full view-model state of `CompanyTable`. -/
structure TableState where
  companies : List Company
  filters : Filters
  sortStatus : SortStatus
  cellEdits : Overrides
  verifications : VerMap

/-- Embeds `filteredAndSortedCompanies` (lines 673-699): filter, then sort.
Computed from `companies`, `filters` and `sortStatus` only. -/
def filteredAndSortedCompanies (lc : String → String → Int) (s : TableState) : List Company :=
  sortStep lc s.sortStatus (filterStep s.filters s.companies)

/-! ## CSV export -/

/-- Embeds `getValue` inside `exportToCSV` (lines 485-488): the stored override
when one exists (even an empty-string override), otherwise the record's own
value (`|| ''` leaves strings unchanged; the list case is never reached —
`getValue` is only applied to string-valued keys). -/
def getValue (edits : Overrides) (c : Company) (f : FieldKey) : String :=
  match editLookup edits c.company_name (fieldKey f) with
  | some v => v
  | none =>
    match c.get f with
    | CellValue.str s => s
    | CellValue.list xs => String.intercalate "," xs

/-- Embeds `formatCitations` (lines 491-493). -/
def formatCitations (citations : List String) : String :=
  if citations.isEmpty then "" else String.intercalate ", " citations

/-- Regex replacement of whitespace runs by `_`: collapse each maximal run. -/
def collapseWs : List Char → List Char
  | [] => []
  | c :: cs =>
    if c.isWhitespace then '_' :: collapseWs (cs.dropWhile Char.isWhitespace)
    else c :: collapseWs cs
termination_by l => l.length
decreasing_by
  · simp only [List.length_cons]
    exact Nat.lt_succ_of_le ((List.dropWhile_sublist _).length_le)
  · simp

/-- Models `(contact.position || 'contact').toLowerCase().replace(/\s+/g, '_')`.
A truthy non-string `position` would make `toLowerCase` throw
(`Except.error`), discarding all contact data for the row. -/
def positionOf (contact : Json) : Except Unit String :=
  match contact with
  | Json.null => Except.error ()
  | _ =>
    match jsFieldOf contact "position" with
    | none => Except.ok "contact"
    | some j =>
      if jsFalsy j then Except.ok "contact"
      else
        match j with
        | Json.str s => Except.ok (String.mk (collapseWs s.toLower.data))
        | _ => Except.error ()

/-- Models the template `` `${contact.first_name || ''} ${contact.last_name || ''}`.trim() ``. -/
def contactName (contact : Json) : String :=
  (jsOrDefault (jsFieldOf contact "first_name") "" ++ " "
    ++ jsOrDefault (jsFieldOf contact "last_name") "").trim

/-- Models `contact.email || ''`. -/
def contactEmail (contact : Json) : String :=
  jsOrDefault (jsFieldOf contact "email") ""

/-- The `contacts.forEach` grouping loop (lines 504-514): group the
`(name, email)` pairs by normalized position, insertion-ordered. -/
def groupContacts (acc : ObjMap (List (String × String))) :
    List Json → Except Unit (ObjMap (List (String × String)))
  | [] => Except.ok acc
  | contact :: rest => do
    let pos ← positionOf contact
    let entry := (contactName contact, contactEmail contact)
    groupContacts (objSet acc pos ((objGet acc pos).getD [] ++ [entry])) rest

/-- The `Object.entries(contactsByPosition)` emission loop (lines 517-523):
nonempty names and emails joined with `", "` into `<position>_name` /
`<position>_email` columns. -/
def emitContactGroups (groups : ObjMap (List (String × String))) : List (String × String) :=
  groups.foldl
    (fun acc p =>
      let names := String.intercalate ", " ((p.snd.map (fun c => c.fst)).filter (fun n => ¬ n = ""))
      let emails := String.intercalate ", " ((p.snd.map (fun c => c.snd)).filter (fun e => ¬ e = ""))
      (acc ++ (if names = "" then [] else [(p.fst ++ "_name", names)]))
        ++ (if emails = "" then [] else [(p.fst ++ "_email", emails)]))
    []

/-- The contact-flattening block of `exportToCSV` (lines 496-528): parse
`contact_info`, group by position, emit dynamic columns; any throw
(unparseable JSON, non-array value handled by the `isArray` guard, `null`
contact, non-string truthy position) leaves the contact data empty. -/
def contactDataOf (contact_info : String) : List (String × String) :=
  match jsonParse contact_info with
  | none => []
  | some (Json.arr contacts) =>
    match groupContacts [] contacts with
    | Except.ok groups => emitContactGroups groups
    | Except.error _ => []
  | some _ => []

/-- The fixed columns of an export row that precede the contact spread
(lines 531-545). -/
def exportRowHead (edits : Overrides) (c : Company) : List (String × String) :=
  [("company_name", getValue edits c FieldKey.company_name),
   ("state", getValue edits c FieldKey.state),
   ("investment_grade", getValue edits c FieldKey.investment_grade),
   ("investment_grade_summary", c.investment_grade_summary),
   ("investment_grade_citations", formatCitations c.investment_grade_citations),
   ("est_annual_revenue", getValue edits c FieldKey.est_annual_revenue),
   ("est_annual_revenue_citations", formatCitations c.est_annual_revenue_citations),
   ("est_yoy_growth", getValue edits c FieldKey.est_yoy_growth),
   ("est_yoy_growth_citations", formatCitations c.est_yoy_growth_citations),
   ("pe_backed", getValue edits c FieldKey.pe_backed),
   ("pe_backed_citations", formatCitations c.pe_backed_citations),
   ("can_accommodate_allocation", getValue edits c FieldKey.can_accommodate_allocation),
   ("can_accommodate_allocation_citations", formatCitations c.can_accommodate_allocation_citations),
   ("website", getValue edits c FieldKey.website)]

/-- The OSHA columns that follow the contact spread (lines 549-558). -/
def exportRowOsha (edits : Overrides) (c : Company) : List (String × String) :=
  [("osha_annual_average_employees_2020", getValue edits c FieldKey.annual_average_employees_2020),
   ("osha_annual_average_employees_2021", getValue edits c FieldKey.annual_average_employees_2021),
   ("osha_annual_average_employees_2022", getValue edits c FieldKey.annual_average_employees_2022),
   ("osha_annual_average_employees_2023", getValue edits c FieldKey.annual_average_employees_2023),
   ("osha_annual_average_employees_2024", getValue edits c FieldKey.annual_average_employees_2024),
   ("osha_total_hours_worked_2020", getValue edits c FieldKey.total_hours_worked_2020),
   ("osha_total_hours_worked_2021", getValue edits c FieldKey.total_hours_worked_2021),
   ("osha_total_hours_worked_2022", getValue edits c FieldKey.total_hours_worked_2022),
   ("osha_total_hours_worked_2023", getValue edits c FieldKey.total_hours_worked_2023),
   ("osha_total_hours_worked_2024", getValue edits c FieldKey.total_hours_worked_2024)]

/-- One exported row, as the key/value sequence of the object literal of
lines 531-559 (fixed head, spread contact columns, OSHA columns). -/
def exportRow (edits : Overrides) (c : Company) : List (String × String) :=
  exportRowHead edits c ++ contactDataOf c.contact_info ++ exportRowOsha edits c

/-- The value an exported row holds for a column key.  A JavaScript object
literal resolves duplicate keys to the last assignment, so the lookup takes
the last matching pair. -/
def rowVal (row : List (String × String)) (k : String) : Option String :=
  row.foldl (fun acc p => if p.fst = k then some p.snd else acc) none

/-- Embeds `dataToExport` of `exportToCSV` (lines 483-560): one object per record
of the current filtered-and-sorted sequence, in that order. -/
def exportRows (lc : String → String → Int) (s : TableState) : List (List (String × String)) :=
  (filteredAndSortedCompanies lc s).map (exportRow s.cellEdits)

/-! ## Column configuration and state initializers -/

/-- Column kind (`'definition' | 'metric'`). -/
inductive ColumnType where
  | definition | metric
deriving DecidableEq, Repr

/-- One entry of `ColumnConfig` (`CompanyTable.tsx` lines 85-92). -/
structure ColumnConfig where
  key : FieldKey
  label : String
  type : ColumnType
  visible : Bool
  order : Nat
  group : Option String := none
deriving DecidableEq, Repr

/-- The version-controlled default column list (lines 106-126). -/
def columnConfigs : List ColumnConfig :=
  [{ key := FieldKey.company_name, label := "Company Name", type := ColumnType.definition, visible := true, order := 0 },
   { key := FieldKey.state, label := "State", type := ColumnType.definition, visible := true, order := 1 },
   { key := FieldKey.investment_grade, label := "Investment Grade", type := ColumnType.metric, visible := true, order := 2 },
   { key := FieldKey.est_annual_revenue, label := "Est. Annual Rev. ($)", type := ColumnType.metric, visible := true, order := 3 },
   { key := FieldKey.est_yoy_growth, label := "Est. YoY Growth (%)", type := ColumnType.metric, visible := true, order := 4 },
   { key := FieldKey.pe_backed, label := "PE-backed (y/n)", type := ColumnType.metric, visible := true, order := 5 },
   { key := FieldKey.can_accommodate_allocation, label := "Can Accommodate $10M", type := ColumnType.metric, visible := true, order := 6 },
   { key := FieldKey.last_interaction_date, label := "Last Interaction Date", type := ColumnType.metric, visible := true, order := 7, group := some "Affinity" },
   { key := FieldKey.last_interaction_id, label := "Last Interaction IDs", type := ColumnType.metric, visible := true, order := 8, group := some "Affinity" },
   { key := FieldKey.annual_average_employees_2020, label := "2020", type := ColumnType.metric, visible := true, order := 9, group := some "Avg Employees (OSHA)" },
   { key := FieldKey.annual_average_employees_2021, label := "2021", type := ColumnType.metric, visible := true, order := 10, group := some "Avg Employees (OSHA)" },
   { key := FieldKey.annual_average_employees_2022, label := "2022", type := ColumnType.metric, visible := true, order := 11, group := some "Avg Employees (OSHA)" },
   { key := FieldKey.annual_average_employees_2023, label := "2023", type := ColumnType.metric, visible := true, order := 12, group := some "Avg Employees (OSHA)" },
   { key := FieldKey.annual_average_employees_2024, label := "2024", type := ColumnType.metric, visible := true, order := 13, group := some "Avg Employees (OSHA)" },
   { key := FieldKey.total_hours_worked_2020, label := "2020", type := ColumnType.metric, visible := true, order := 14, group := some "Total Hours Worked (OSHA)" },
   { key := FieldKey.total_hours_worked_2021, label := "2021", type := ColumnType.metric, visible := true, order := 15, group := some "Total Hours Worked (OSHA)" },
   { key := FieldKey.total_hours_worked_2022, label := "2022", type := ColumnType.metric, visible := true, order := 16, group := some "Total Hours Worked (OSHA)" },
   { key := FieldKey.total_hours_worked_2023, label := "2023", type := ColumnType.metric, visible := true, order := 17, group := some "Total Hours Worked (OSHA)" },
   { key := FieldKey.total_hours_worked_2024, label := "2024", type := ColumnType.metric, visible := true, order := 18, group := some "Total Hours Worked (OSHA)" }]

/-- The browser `localStorage`: key → stored string. -/
def Storage : Type := String → Option String

/-- The `columnSettings` initializer (lines 419-422).  The source reads
nothing from storage: the comment there says
"Clear old settings by always using the updated columnConfigs". -/
def initColumnSettings (_store : Storage) : List ColumnConfig :=
  columnConfigs

/-- Decode one inner object of a persisted verification blob
(`Record<string, boolean>`). -/
def decodeBoolEntries : List (String × Json) → Option (ObjMap Bool)
  | [] => some []
  | (k, Json.bool b) :: rest =>
    match decodeBoolEntries rest with
    | some m => some ((k, b) :: m)
    | none => none
  | _ => none

/-- Decode a persisted verification blob
(`Record<string, Record<string, boolean>>`).  The source passes the
`JSON.parse` result through unvalidated; blobs outside the declared shape
are outside the model. -/
def decodeVerMap : Json → Option VerMap
  | Json.obj fields => decodeVerMapGo fields
  | _ => none
where
  decodeVerMapGo : List (String × Json) → Option VerMap
    | [] => some []
    | (k, Json.obj inner) :: rest =>
      match decodeBoolEntries inner with
      | none => none
      | some m =>
        match decodeVerMapGo rest with
        | some ms => some ((k, m) :: ms)
        | none => none
    | _ => none

/-- Decode one inner object of a persisted edits blob
(`Record<string, string>`). -/
def decodeStrEntries : List (String × Json) → Option (ObjMap String)
  | [] => some []
  | (k, Json.str v) :: rest =>
    match decodeStrEntries rest with
    | some m => some ((k, v) :: m)
    | none => none
  | _ => none

/-- Decode a persisted edits blob (`Record<string, Record<string, string>>`);
same modelling note as `decodeVerMap`. -/
def decodeEditsMap : Json → Option Overrides
  | Json.obj fields => decodeEditsMapGo fields
  | _ => none
where
  decodeEditsMapGo : List (String × Json) → Option Overrides
    | [] => some []
    | (k, Json.obj inner) :: rest =>
      match decodeStrEntries inner with
      | none => none
      | some m =>
        match decodeEditsMapGo rest with
        | some ms => some ((k, m) :: ms)
        | none => none
    | _ => none

/-- The `verifications` initializer (lines 424-427):
`savedVerifications ? JSON.parse(savedVerifications) : {}`.  A missing or
empty (falsy) stored value yields the empty map; unparseable JSON makes
`JSON.parse` throw uncaught (`Except.error`). -/
def initVerifications (store : Storage) : Except Unit VerMap :=
  match store "companyTableVerifications" with
  | none => Except.ok []
  | some s =>
    if s = "" then Except.ok []
    else
      match jsonParse s with
      | none => Except.error ()
      | some j =>
        match decodeVerMap j with
        | some m => Except.ok m
        | none => Except.error ()

/-- The `cellEdits` initializer (lines 429-432), analogous. -/
def initCellEdits (store : Storage) : Except Unit Overrides :=
  match store "companyTableEdits" with
  | none => Except.ok []
  | some s =>
    if s = "" then Except.ok []
    else
      match jsonParse s with
      | none => Except.error ()
      | some j =>
        match decodeEditsMap j with
        | some m => Except.ok m
        | none => Except.error ()

/-! ## The authentication gate -/

/-- The build-time environment values `validateCredentials` reads
(`import.meta.env`); `none` = unset. -/
structure AuthEnv where
  authModeVar : Option String
  devUsernameVar : Option String
  devPasswordVar : Option String
  apiBaseUrlVar : Option String
deriving DecidableEq, Repr

/-- Models `v || d` on an environment value (an empty string is falsy). -/
def envOr (v : Option String) (d : String) : String :=
  match v with
  | none => d
  | some s => if s = "" then d else s

/-- The outcome of the one `fetch` call, as the code observes it:
`fail` is a rejected fetch (network error); otherwise `ok` is `response.ok`
(status 200-299) and `body` is the parsed JSON body, `none` when
`response.json()` rejects. -/
inductive FetchResult where
  | fail : FetchResult
  | resp : Bool → Option Json → FetchResult

/-- Models `result.valid === true` after `response.json()`: only an object body
whose `valid` field is the boolean `true` passes (reading a property of a
`null` body throws, which the surrounding `catch` turns into `false`). -/
def resultValidIsTrue (j : Json) : Bool :=
  match j with
  | Json.obj fs =>
    match jsField fs "valid" with
    | some (Json.bool true) => true
    | _ => false
  | _ => false

/-- Embeds `validateCredentials` (the authentication glue module).  The whole body
is wrapped in `try`/`catch { return false }`, so every throw — missing
`VITE_API_BASE_URL` in API mode, a rejected fetch, a rejected
`response.json()`, an unknown auth mode — yields `false`.  Local mode never
touches `fetchResult` (no network call). -/
def validateCredentials (env : AuthEnv) (fetchResult : FetchResult)
    (username password : String) : Bool :=
  let authMode := envOr env.authModeVar "local"
  if authMode = "local" then
    let devUsername := envOr env.devUsernameVar "admin"
    let devPassword := envOr env.devPasswordVar "password123"
    username = devUsername && password = devPassword
  else if authMode = "api" then
    match env.apiBaseUrlVar with
    | none => false
    | some apiBaseUrl =>
      if apiBaseUrl = "" then false
      else
        match fetchResult with
        | FetchResult.fail => false
        | FetchResult.resp ok body =>
          if !ok then false
          else
            match body with
            | none => false
            | some j => resultValidIsTrue j
  else false

/-! ## Auxiliary definitions for the claims -/

/-- Two metric maps that agree on every looked-up name. -/
def mapsAgreeOnExpected (m1 m2 : List (String × Json)) : Prop :=
  ∀ n ∈ expectedMetricNames, mapGet m1 n = mapGet m2 n

/-- Relate two `forEach` outcomes: both throw, or both succeed with maps
that agree on the looked-up names. -/
def buildRel : Except Unit (List (String × Json)) → Except Unit (List (String × Json)) → Prop
  | Except.error _, Except.error _ => True
  | Except.ok m1, Except.ok m2 => mapsAgreeOnExpected m1 m2
  | _, _ => False

/-- The matching predicate as the specification states it: case-insensitive
substring containment; a list matches when some element contains the filter
text. -/
def cellMatchesSpec (v : CellValue) (filterValue : String) : Prop :=
  match v with
  | CellValue.str s => filterValue.toLower.data <:+: s.toLower.data
  | CellValue.list xs => ∃ x ∈ xs, filterValue.toLower.data <:+: x.toLower.data

/-- A record with every field empty apart from the company name; concrete
test data for witnesses. -/
def namedCompany (name : String) : Company :=
  { company_name := name, state := "", investment_grade := "",
    investment_grade_summary := "", investment_grade_citations := [],
    est_annual_revenue := "", est_annual_revenue_citations := [],
    est_yoy_growth := "", est_yoy_growth_citations := [],
    pe_backed := "", pe_backed_citations := [],
    can_accommodate_allocation := "", can_accommodate_allocation_citations := [],
    good_reputation := "", good_reputation_citations := [],
    website := "", contact_info := "", last_interaction_date := "",
    last_interaction_id := "",
    annual_average_employees_2020 := "", annual_average_employees_2021 := "",
    annual_average_employees_2022 := "", annual_average_employees_2023 := "",
    annual_average_employees_2024 := "",
    total_hours_worked_2020 := "", total_hours_worked_2021 := "",
    total_hours_worked_2022 := "", total_hours_worked_2023 := "",
    total_hours_worked_2024 := "" }

/-- A concrete consistent comparator (compare string lengths), standing in
for `localeCompare` in witnesses. -/
def lcLen (a b : String) : Int := (a.length : Int) - (b.length : Int)

/-- Last-match preference of two lookups (JavaScript object-literal
duplicate-key resolution). -/
def olast (x y : Option String) : Option String :=
  match x with
  | some v => some v
  | none => y

/-- The fixed column keys of the export-row object literal that precede the
contact spread. -/
def exportFixedKeys : List String :=
  ["company_name", "state", "investment_grade", "investment_grade_summary",
   "investment_grade_citations", "est_annual_revenue", "est_annual_revenue_citations",
   "est_yoy_growth", "est_yoy_growth_citations", "pe_backed", "pe_backed_citations",
   "can_accommodate_allocation", "can_accommodate_allocation_citations", "website"]

def c1BadRow : CompanyCSV :=
  { company_name := "Acme Roofing", state := "TX", investment_grade := "B",
    metrics := some "not json" }

def c8Row : CompanyCSV :=
  { company_name := "Gamma", state := "TX", investment_grade := "B",
    metrics := some "[]", last_interaction_date := some "not a date" }

def c6Row : CompanyCSV :=
  { company_name := "Delta", state := "FL", investment_grade := "C",
    metrics := some "[]" }

def c3Edits : Overrides := [("Acme", [("investment_grade_summary", "EDITED")])]

def c3Company : Company := { namedCompany "Acme" with investment_grade_summary := "orig summary" }


/-! ## Helper lemmas -/

/-! ## Association-map lemmas -/

@[simp]
theorem objGet_nil {α : Type} (k : String) : objGet ([] : ObjMap α) k = none := rfl

theorem objGet_cons {α : Type} (p : String × α) (t : ObjMap α) (k : String) :
    objGet (p :: t) k = if p.fst = k then some p.snd else objGet t k := by
  by_cases hp : p.fst = k <;> simp [objGet, List.find?_cons, hp]

theorem objGet_map_replace_self {α : Type} (m : ObjMap α) (k : String) (v : α)
    (h : m.any (fun p => p.fst = k) = true) :
    objGet (m.map (fun p => if p.fst = k then (k, v) else p)) k = some v := by
  induction m with
  | nil => simp at h
  | cons p t ih =>
    by_cases hp : p.fst = k
    · simp [List.map_cons, hp, objGet_cons]
    · simp only [List.any_cons, Bool.or_eq_true, decide_eq_true_eq] at h
      rcases h with h1 | h2
      · exact absurd h1 hp
      · simp [List.map_cons, hp, objGet_cons, ih h2]

theorem objGet_map_replace_ne {α : Type} (m : ObjMap α) (k k2 : String) (v : α)
    (hne : ¬ k2 = k) :
    objGet (m.map (fun p => if p.fst = k then (k, v) else p)) k2 = objGet m k2 := by
  have hk2 : ¬ k = k2 := fun hc => hne hc.symm
  induction m with
  | nil => rfl
  | cons p t ih =>
    by_cases hp : p.fst = k
    · have hk : ¬ p.fst = k2 := by rw [hp]; exact hk2
      simp [List.map_cons, hp, objGet_cons, hk2, hk, ih]
    · simp [List.map_cons, hp, objGet_cons, ih]

theorem objGet_none_of_not_any {α : Type} (m : ObjMap α) (k : String)
    (h : m.any (fun p => p.fst = k) = false) : objGet m k = none := by
  induction m with
  | nil => rfl
  | cons p t ih =>
    simp only [List.any_cons, Bool.or_eq_false_iff, decide_eq_false_iff_not] at h
    simp [objGet_cons, h.1, ih h.2]

theorem objGet_append {α : Type} (m1 m2 : ObjMap α) (k : String) :
    objGet (m1 ++ m2) k = ((objGet m1 k).rec (objGet m2 k) (fun v => some v) : Option α) := by
  induction m1 with
  | nil => simp [objGet]
  | cons p t ih =>
    by_cases hp : p.fst = k <;> simp [List.cons_append, objGet_cons, hp, ih]

theorem objGet_objSet_self {α : Type} (m : ObjMap α) (k : String) (v : α) :
    objGet (objSet m k v) k = some v := by
  unfold objSet
  by_cases h : m.any (fun p => p.fst = k) = true
  · rw [if_pos h]; exact objGet_map_replace_self m k v h
  · rw [if_neg h, objGet_append,
        objGet_none_of_not_any m k (Bool.not_eq_true _ ▸ h)]
    simp [objGet_cons]

theorem objGet_objSet_ne {α : Type} (m : ObjMap α) (k k2 : String) (v : α)
    (hne : ¬ k2 = k) : objGet (objSet m k v) k2 = objGet m k2 := by
  unfold objSet
  have hk : ¬ k = k2 := fun hc => hne hc.symm
  by_cases h : m.any (fun p => p.fst = k) = true
  · rw [if_pos h]; exact objGet_map_replace_ne m k k2 v hne
  · rw [if_neg h, objGet_append]
    cases hg : objGet m k2 <;> simp [objGet_cons, hk]

theorem objGet_objDelete_self {α : Type} (m : ObjMap α) (k : String) :
    objGet (objDelete m k) k = none := by
  simp only [objDelete, decide_not]
  induction m with
  | nil => rfl
  | cons p t ih =>
    rw [List.filter_cons]
    by_cases hp : p.fst = k
    · simp [hp, ih]
    · simp [hp, objGet_cons, ih]

theorem objGet_objDelete_ne {α : Type} (m : ObjMap α) (k k2 : String)
    (hne : ¬ k2 = k) : objGet (objDelete m k) k2 = objGet m k2 := by
  simp only [objDelete, decide_not]
  induction m with
  | nil => rfl
  | cons p t ih =>
    rw [List.filter_cons]
    by_cases hp : p.fst = k
    · have hk : ¬ p.fst = k2 := by rw [hp]; exact fun hc => hne hc.symm
      have hk2 : ¬ k = k2 := fun hc => hne hc.symm
      simp [hp, objGet_cons, hk, hk2, ih]
    · simp [hp, objGet_cons, ih]

theorem objGet_none_of_delete_nil {α : Type} (m : ObjMap α) (k : String)
    (h : objDelete m k = []) (k2 : String) (hne : ¬ k2 = k) :
    objGet m k2 = none := by
  simp only [objDelete, decide_not] at h
  induction m with
  | nil => rfl
  | cons p t ih =>
    rw [List.filter_cons] at h
    by_cases hp : p.fst = k
    · have hk : ¬ p.fst = k2 := by rw [hp]; exact fun hc => hne hc.symm
      simp only [hp, decide_eq_true_eq] at h
      rw [objGet_cons, if_neg hk]
      exact ih (by simpa [hp] using h)
    · simp [hp] at h

theorem objGet_ne_none_of_mem {α : Type} (m : ObjMap α) (p : String × α)
    (hmem : p ∈ m) : objGet m p.fst ≠ none := by
  induction m with
  | nil => cases hmem
  | cons q t ih =>
    rcases List.mem_cons.mp hmem with h | h
    · subst h; simp [objGet_cons]
    · by_cases hq : q.fst = p.fst <;> simp [objGet_cons, hq, ih h]

theorem objDelete_nil_of_all_key {α : Type} (m : ObjMap α) (k : String)
    (h : ∀ p ∈ m, p.fst = k) : objDelete m k = [] := by
  simp only [objDelete, decide_not]
  induction m with
  | nil => rfl
  | cons p t ih =>
    rw [List.filter_cons]
    have hp := h p (List.mem_cons_self p t)
    simp only [hp]
    simpa using ih (fun q hq => h q (List.mem_cons_of_mem p hq))

theorem objDelete_objSet_nil {α : Type} (m : ObjMap α) (k : String) (v : α)
    (h : ∀ k2, ¬ k2 = k → objGet m k2 = none) :
    objDelete (objSet m k v) k = [] := by
  have hall : ∀ p ∈ m, p.fst = k := by
    intro p hp
    by_contra hne
    exact objGet_ne_none_of_mem m p hp (h p.fst hne)
  apply objDelete_nil_of_all_key
  intro p hp
  unfold objSet at hp
  by_cases hany : m.any (fun q => q.fst = k) = true
  · rw [if_pos hany] at hp
    rcases List.mem_map.mp hp with ⟨q, hq, hqe⟩
    by_cases hqk : q.fst = k
    · rw [if_pos hqk] at hqe; rw [← hqe]
    · exact absurd (hall q hq) hqk
  · rw [if_neg hany] at hp
    rcases List.mem_append.mp hp with h1 | h1
    · exact hall p h1
    · rw [List.mem_singleton.mp h1]

theorem revert_after_set_core (edits : Overrides) (companyName metricKey newValue : String) :
    handleRevert (handleValueChange edits companyName metricKey newValue) companyName metricKey =
      (if (objDelete (objSet ((objGet edits companyName).getD []) metricKey newValue) metricKey).isEmpty
       then objDelete (handleValueChange edits companyName metricKey newValue) companyName
       else objSet (handleValueChange edits companyName metricKey newValue) companyName
              (objDelete (objSet ((objGet edits companyName).getD []) metricKey newValue) metricKey)) := by
  have he1get : objGet (handleValueChange edits companyName metricKey newValue) companyName
      = some (objSet ((objGet edits companyName).getD []) metricKey newValue) :=
    objGet_objSet_self _ _ _
  unfold handleRevert
  rw [he1get]

theorem last_override_delete_nil (edits : Overrides) (companyName metricKey newValue : String)
    (hlast : ∀ k2, ¬ k2 = metricKey → editLookup edits companyName k2 = none) :
    objDelete (objSet ((objGet edits companyName).getD []) metricKey newValue) metricKey = [] := by
  apply objDelete_objSet_nil
  intro k2 hk2
  cases hg : objGet edits companyName with
  | none => simp [hg]
  | some inner0 =>
    have := hlast k2 hk2
    unfold editLookup at this
    rw [hg] at this
    simpa [hg] using this

theorem editLookup_of_objGet (edits : Overrides) (c k : String) {inner : ObjMap String}
    (h : objGet edits c = some inner) : editLookup edits c k = objGet inner k := by
  unfold editLookup
  rw [h]

theorem editLookup_of_objGet_none (edits : Overrides) (c k : String)
    (h : objGet edits c = none) : editLookup edits c k = none := by
  unfold editLookup
  rw [h]

/-- Claim C4: setting an override and then reverting it leaves no override
for that cell, so the cell displays the record's own (original) value
again; the revert changes no other (company, field) key relative to the
post-edit state; and when the reverted key was the company's last override,
the company's entry is removed from the map entirely, leaving no empty
residue. -/
theorem set_then_revert_restores (edits : Overrides) (companyName metricKey newValue : String) :
    editLookup (handleRevert (handleValueChange edits companyName metricKey newValue) companyName metricKey)
        companyName metricKey = none
    ∧ (∀ c : Company, ∀ f : FieldKey, c.company_name = companyName → fieldKey f = metricKey →
        displayedValue (handleRevert (handleValueChange edits companyName metricKey newValue) companyName metricKey) c f
          = displayedValue [] c f)
    ∧ (∀ c2 k2, ¬ (c2 = companyName ∧ k2 = metricKey) →
        editLookup (handleRevert (handleValueChange edits companyName metricKey newValue) companyName metricKey) c2 k2
          = editLookup (handleValueChange edits companyName metricKey newValue) c2 k2)
    ∧ ((∀ k2, ¬ k2 = metricKey → editLookup edits companyName k2 = none) →
        objGet (handleRevert (handleValueChange edits companyName metricKey newValue) companyName metricKey)
          companyName = none) := by
  have hcore := revert_after_set_core edits companyName metricKey newValue
  have he1get : objGet (handleValueChange edits companyName metricKey newValue) companyName
      = some (objSet ((objGet edits companyName).getD []) metricKey newValue) :=
    objGet_objSet_self _ _ _
  have hlookup : editLookup (handleRevert (handleValueChange edits companyName metricKey newValue) companyName metricKey)
      companyName metricKey = none := by
    rw [hcore]
    by_cases hemp : (objDelete (objSet ((objGet edits companyName).getD []) metricKey newValue) metricKey).isEmpty
    · rw [if_pos hemp]
      exact editLookup_of_objGet_none _ _ _ (objGet_objDelete_self _ _)
    · rw [if_neg hemp]
      rw [editLookup_of_objGet _ _ _ (objGet_objSet_self _ _ _)]
      exact objGet_objDelete_self _ _
  refine ⟨hlookup, ?_, ?_, ?_⟩
  · intro c f hc hf
    unfold displayedValue
    rw [hc, hf, hlookup]
    rfl
  · intro c2 k2 hne
    rw [hcore]
    by_cases hc2 : c2 = companyName
    · subst hc2
      have hk2 : ¬ k2 = metricKey := fun hk => hne ⟨rfl, hk⟩
      by_cases hemp : (objDelete (objSet ((objGet edits c2).getD []) metricKey newValue) metricKey).isEmpty
      · rw [if_pos hemp]
        rw [editLookup_of_objGet_none _ _ _ (objGet_objDelete_self _ _),
            editLookup_of_objGet _ _ _ he1get]
        exact (objGet_none_of_delete_nil _ _ (List.isEmpty_iff.mp hemp) k2 hk2).symm
      · rw [if_neg hemp]
        rw [editLookup_of_objGet _ _ _ (objGet_objSet_self _ _ _),
            editLookup_of_objGet _ _ _ he1get]
        exact objGet_objDelete_ne _ _ _ hk2
    · by_cases hemp : (objDelete (objSet ((objGet edits companyName).getD []) metricKey newValue) metricKey).isEmpty
      · rw [if_pos hemp]
        unfold editLookup
        rw [objGet_objDelete_ne _ _ _ hc2]
      · rw [if_neg hemp]
        unfold editLookup
        rw [objGet_objSet_ne _ _ _ _ hc2]
  · intro hlast
    have hnil := last_override_delete_nil edits companyName metricKey newValue hlast
    rw [hcore, hnil]
    simp only [List.isEmpty_nil, if_pos]
    exact objGet_objDelete_self _ _

theorem set_then_revert_restores_witness :
    editLookup (handleRevert (handleValueChange [] "Acme" "pe_backed" "Yes") "Acme" "pe_backed")
        "Acme" "pe_backed" = none
    ∧ objGet (handleRevert (handleValueChange [] "Acme" "pe_backed" "Yes") "Acme" "pe_backed")
        "Acme" = none := by
  have h := set_then_revert_restores [] "Acme" "pe_backed" "Yes"
  exact ⟨h.1, h.2.2.2 (fun k2 hk2 => rfl)⟩

/-- Claim C5: credential validation fails closed.  In local mode the result
is independent of the network (no fetch outcome is consulted) and is `true`
exactly when the input pair equals the two configured strings; in API mode
a failed fetch, a non-2xx response, a response body that is missing or
lacks `valid === true`, and a missing API-base configuration value all
yield `false` rather than an exception. -/
theorem validateCredentials_fails_closed :
    (∀ env f1 f2 u p, envOr env.authModeVar "local" = "local" →
        validateCredentials env f1 u p = validateCredentials env f2 u p
        ∧ (validateCredentials env f1 u p = true ↔
            (u = envOr env.devUsernameVar "admin" ∧ p = envOr env.devPasswordVar "password123")))
    ∧ (∀ env u p, envOr env.authModeVar "local" = "api" →
        validateCredentials env FetchResult.fail u p = false
        ∧ (∀ body, validateCredentials env (FetchResult.resp false body) u p = false)
        ∧ (∀ ok, validateCredentials env (FetchResult.resp ok none) u p = false)
        ∧ (∀ ok j, resultValidIsTrue j = false →
            validateCredentials env (FetchResult.resp ok (some j)) u p = false)
        ∧ (env.apiBaseUrlVar = none → ∀ f, validateCredentials env f u p = false)) := by
  constructor
  · intro env f1 f2 u p hmode
    unfold validateCredentials
    rw [hmode]
    simp
  · intro env u p hmode
    have hnl : ¬ envOr env.authModeVar "local" = "local" := by rw [hmode]; decide
    refine ⟨?_, ?_, ?_, ?_, ?_⟩
    · unfold validateCredentials
      rw [if_neg hnl, if_pos hmode]
      cases env.apiBaseUrlVar with
      | none => rfl
      | some b => by_cases hb : b = "" <;> simp [hb]
    · intro body
      unfold validateCredentials
      rw [if_neg hnl, if_pos hmode]
      cases env.apiBaseUrlVar with
      | none => rfl
      | some b => by_cases hb : b = "" <;> simp [hb]
    · intro ok
      unfold validateCredentials
      rw [if_neg hnl, if_pos hmode]
      cases env.apiBaseUrlVar with
      | none => rfl
      | some b =>
        by_cases hb : b = "" <;> cases ok <;> simp [hb]
    · intro ok j hj
      unfold validateCredentials
      rw [if_neg hnl, if_pos hmode]
      cases env.apiBaseUrlVar with
      | none => rfl
      | some b =>
        by_cases hb : b = "" <;> cases ok <;> simp [hb, hj]
    · intro hb f
      unfold validateCredentials
      rw [if_neg hnl, if_pos hmode, hb]

theorem validateCredentials_fails_closed_witness :
    validateCredentials ⟨none, none, none, none⟩ FetchResult.fail "admin" "password123" = true
    ∧ validateCredentials ⟨none, none, none, none⟩ FetchResult.fail "admin" "wrong" = false
    ∧ validateCredentials ⟨some "api", none, none, some "https://x"⟩ FetchResult.fail "u" "p" = false := by
  have h := validateCredentials_fails_closed
  refine ⟨?_, ?_, ?_⟩
  · exact ((h.1 ⟨none, none, none, none⟩ FetchResult.fail FetchResult.fail
      "admin" "password123" rfl).2).mpr ⟨rfl, rfl⟩
  · have hiff := (h.1 ⟨none, none, none, none⟩ FetchResult.fail FetchResult.fail
      "admin" "wrong" rfl).2
    have : ¬ validateCredentials ⟨none, none, none, none⟩ FetchResult.fail "admin" "wrong" = true :=
      fun htrue => absurd (hiff.mp htrue).2 (by decide)
    exact Bool.not_eq_true _ ▸ this
  · exact (h.2 ⟨some "api", none, none, some "https://x"⟩ "u" "p" rfl).1

theorem loadCompanies_aborts (rows : List CompanyCSV) (r : CompanyCSV) (hr : r ∈ rows)
    (he : transformCSVToCompany r = Except.error ()) :
    loadCompanies rows = Except.error () := by
  induction rows with
  | nil => cases hr
  | cons a t ih =>
    unfold loadCompanies
    rcases List.mem_cons.mp hr with h | h
    · rw [h] at he
      rw [he]
      rfl
    · cases ha : transformCSVToCompany a with
      | error e => rfl
      | ok b =>
        rw [ih h]
        rfl

/-- Claim C1, corrected: a CSV row whose `metrics` cell is missing or is not
valid JSON makes the per-row transform throw (the `JSON.parse` call at line
578 is not guarded by any `try`), and one such row aborts the whole load —
no record is produced for any row, contrary to the claim's expectation that
the affected row still yields a record with sentinel metric values. -/
theorem metrics_parse_failure_aborts (row : CompanyCSV)
    (h : row.metrics = none ∨ ∃ s, row.metrics = some s ∧ jsonParse s = none) :
    transformCSVToCompany row = Except.error ()
    ∧ (∀ rows, row ∈ rows → loadCompanies rows = Except.error ()) := by
  have h1 : parsedMetrics row.metrics = Except.error () := by
    rcases h with h | ⟨s, hs, hp⟩
    · rw [h]
      rfl
    · rw [hs]
      simp only [parsedMetrics]
      rw [hp]
  have herr : transformCSVToCompany row = Except.error () := by
    unfold transformCSVToCompany
    rw [h1]
  exact ⟨herr, fun rows hr => loadCompanies_aborts rows row hr herr⟩

/-- Claim C1 counterexample: a concrete row with `metrics = "not json"` and
populated `company_name`/`state` makes `transformCSVToCompany` throw instead
of producing a record carrying those columns. -/
theorem metrics_not_json_transform_throws :
    transformCSVToCompany c1BadRow = Except.error ()
    ∧ c1BadRow.company_name = "Acme Roofing" ∧ c1BadRow.state = "TX" :=
  ⟨rfl, rfl, rfl⟩

theorem metrics_parse_failure_aborts_witness :
    transformCSVToCompany
        { company_name := "Beta", state := "CA", investment_grade := "A", metrics := none }
      = Except.error ()
    ∧ loadCompanies
        [{ company_name := "Beta", state := "CA", investment_grade := "A", metrics := none }]
      = Except.error () := by
  have h := metrics_parse_failure_aborts
    { company_name := "Beta", state := "CA", investment_grade := "A", metrics := none }
    (Or.inl rfl)
  exact ⟨h.1, h.2 _ (List.mem_singleton.mpr rfl)⟩

/-- Claim C8 (code bug): for the unparseable date string `"not a date"` the
transform stores the literal string `"Invalid Date"`, not the raw input
kept verbatim as the claim states (the `catch` branch in the source that
would return the raw string is unreachable, since neither the `Date`
constructor nor `toLocaleDateString` throws); a parseable date is
reformatted to the short en-US form. -/
theorem invalid_date_not_kept_verbatim :
    (transformCSVToCompany c8Row).map (fun c => c.last_interaction_date)
      = Except.ok "Invalid Date"
    ∧ ¬ (transformCSVToCompany c8Row).map (fun c => c.last_interaction_date)
      = Except.ok "not a date"
    ∧ formatInteractionDate "2021-03-05" = "Mar 5, 2021" := by
  refine ⟨rfl, ?_, rfl⟩
  intro hcontra
  rw [show (transformCSVToCompany c8Row).map (fun c => c.last_interaction_date)
      = Except.ok "Invalid Date" from rfl] at hcontra
  injection hcontra with h2
  exact absurd h2 (by decide)

theorem mapGet_eq_objGet (m : List (String × Json)) (k : String) :
    mapGet m k = objGet m k := rfl

theorem mapSet_eq_objSet (m : List (String × Json)) (k : String) (v : Json) :
    mapSet m k v = objSet m k v := rfl

theorem mapGet_mapSet_self (m : List (String × Json)) (k : String) (v : Json) :
    mapGet (mapSet m k v) k = some v := by
  rw [mapGet_eq_objGet, mapSet_eq_objSet]
  exact objGet_objSet_self m k v

theorem mapGet_mapSet_ne (m : List (String × Json)) (k n : String) (v : Json)
    (h : ¬ n = k) : mapGet (mapSet m k v) n = mapGet m n := by
  rw [mapGet_eq_objGet, mapSet_eq_objSet, mapGet_eq_objGet]
  exact objGet_objSet_ne m k n v h

theorem buildGo_rel (es : List Json) : ∀ acc1 acc2, mapsAgreeOnExpected acc1 acc2 →
    buildRel (buildMetricMapGo acc1 es) (buildMetricMapGo acc2 es) := by
  induction es with
  | nil => intro acc1 acc2 h; exact h
  | cons e t ih =>
    intro acc1 acc2 h
    cases e with
    | null => exact trivial
    | bool b =>
      simp only [buildMetricMapGo]
      cases hk : metricNameOf (Json.bool b) with
      | some k =>
        exact ih _ _ (fun n hn => by
          by_cases hnk : n = k
          · subst hnk; rw [mapGet_mapSet_self, mapGet_mapSet_self]
          · rw [mapGet_mapSet_ne _ _ _ _ hnk, mapGet_mapSet_ne _ _ _ _ hnk]; exact h n hn)
      | none => exact ih _ _ h
    | num x =>
      simp only [buildMetricMapGo]
      cases hk : metricNameOf (Json.num x) with
      | some k =>
        exact ih _ _ (fun n hn => by
          by_cases hnk : n = k
          · subst hnk; rw [mapGet_mapSet_self, mapGet_mapSet_self]
          · rw [mapGet_mapSet_ne _ _ _ _ hnk, mapGet_mapSet_ne _ _ _ _ hnk]; exact h n hn)
      | none => exact ih _ _ h
    | str x =>
      simp only [buildMetricMapGo]
      cases hk : metricNameOf (Json.str x) with
      | some k =>
        exact ih _ _ (fun n hn => by
          by_cases hnk : n = k
          · subst hnk; rw [mapGet_mapSet_self, mapGet_mapSet_self]
          · rw [mapGet_mapSet_ne _ _ _ _ hnk, mapGet_mapSet_ne _ _ _ _ hnk]; exact h n hn)
      | none => exact ih _ _ h
    | arr xs =>
      simp only [buildMetricMapGo]
      cases hk : metricNameOf (Json.arr xs) with
      | some k =>
        exact ih _ _ (fun n hn => by
          by_cases hnk : n = k
          · subst hnk; rw [mapGet_mapSet_self, mapGet_mapSet_self]
          · rw [mapGet_mapSet_ne _ _ _ _ hnk, mapGet_mapSet_ne _ _ _ _ hnk]; exact h n hn)
      | none => exact ih _ _ h
    | obj fs =>
      simp only [buildMetricMapGo]
      cases hk : metricNameOf (Json.obj fs) with
      | some k =>
        exact ih _ _ (fun n hn => by
          by_cases hnk : n = k
          · subst hnk; rw [mapGet_mapSet_self, mapGet_mapSet_self]
          · rw [mapGet_mapSet_ne _ _ _ _ hnk, mapGet_mapSet_ne _ _ _ _ hnk]; exact h n hn)
      | none => exact ih _ _ h

theorem buildGo_append (pre : List Json) : ∀ (acc : List (String × Json)) (post : List Json),
    buildMetricMapGo acc (pre ++ post) =
      (match buildMetricMapGo acc pre with
       | Except.error e => Except.error e
       | Except.ok m => buildMetricMapGo m post) := by
  induction pre with
  | nil => intro acc post; rfl
  | cons e t ih =>
    intro acc post
    cases e with
    | null => rfl
    | bool b =>
      simp only [List.cons_append, buildMetricMapGo]
      cases hk : metricNameOf (Json.bool b) <;> simp [hk, ih]
    | num x =>
      simp only [List.cons_append, buildMetricMapGo]
      cases hk : metricNameOf (Json.num x) <;> simp [hk, ih]
    | str x =>
      simp only [List.cons_append, buildMetricMapGo]
      cases hk : metricNameOf (Json.str x) <;> simp [hk, ih]
    | arr xs =>
      simp only [List.cons_append, buildMetricMapGo]
      cases hk : metricNameOf (Json.arr xs) <;> simp [hk, ih]
    | obj fs =>
      simp only [List.cons_append, buildMetricMapGo]
      cases hk : metricNameOf (Json.obj fs) <;> simp [hk, ih]

theorem metricValueOf_congr (m1 m2 : List (String × Json)) (n : String)
    (h : mapGet m1 n = mapGet m2 n) : metricValueOf m1 n = metricValueOf m2 n := by
  unfold metricValueOf
  rw [h]

theorem boolMetricOf_congr (m1 m2 : List (String × Json)) (n : String)
    (h : mapGet m1 n = mapGet m2 n) : boolMetricOf m1 n = boolMetricOf m2 n := by
  unfold boolMetricOf
  rw [h]

theorem citationsOf_congr (m1 m2 : List (String × Json)) (n : String)
    (h : mapGet m1 n = mapGet m2 n) : citationsOf m1 n = citationsOf m2 n := by
  unfold citationsOf
  rw [h]

theorem metricFieldsOf_congr (m1 m2 : List (String × Json))
    (h : mapsAgreeOnExpected m1 m2) : metricFieldsOf m1 = metricFieldsOf m2 := by
  have h1 := h "est_annual_revenue" (by simp [expectedMetricNames])
  have h2 := h "est_yoy_growth" (by simp [expectedMetricNames])
  have h3 := h "pe_backed" (by simp [expectedMetricNames])
  have h4 := h "can_accommodate_allocation" (by simp [expectedMetricNames])
  have h5 := h "reputation" (by simp [expectedMetricNames])
  unfold metricFieldsOf
  rw [metricValueOf_congr _ _ _ h1, citationsOf_congr _ _ _ h1,
      metricValueOf_congr _ _ _ h2, citationsOf_congr _ _ _ h2,
      boolMetricOf_congr _ _ _ h3, citationsOf_congr _ _ _ h3,
      boolMetricOf_congr _ _ _ h4, citationsOf_congr _ _ _ h4,
      metricValueOf_congr _ _ _ h5, citationsOf_congr _ _ _ h5]

theorem buildGo_absent_name (name : String) (es : List Json) :
    ∀ acc mm, buildMetricMapGo acc es = Except.ok mm →
    (∀ e ∈ es, ¬ metricNameOf e = some name) →
    mapGet acc name = none → mapGet mm name = none := by
  induction es with
  | nil =>
    intro acc mm hok habs hacc
    cases hok
    exact hacc
  | cons e t ih =>
    intro acc mm hok habs hacc
    cases e with
    | null => simp [buildMetricMapGo] at hok
    | bool b =>
      simp only [buildMetricMapGo] at hok
      cases hk : metricNameOf (Json.bool b) with
      | some k =>
        rw [hk] at hok
        have hkn : ¬ name = k := fun hc => habs _ (List.mem_cons_self _ _) (hc ▸ hk)
        exact ih _ _ hok (fun x hx => habs x (List.mem_cons_of_mem _ hx))
          (by rw [mapGet_mapSet_ne _ _ _ _ hkn]; exact hacc)
      | none =>
        rw [hk] at hok
        exact ih _ _ hok (fun x hx => habs x (List.mem_cons_of_mem _ hx)) hacc
    | num x0 =>
      simp only [buildMetricMapGo] at hok
      cases hk : metricNameOf (Json.num x0) with
      | some k =>
        rw [hk] at hok
        have hkn : ¬ name = k := fun hc => habs _ (List.mem_cons_self _ _) (hc ▸ hk)
        exact ih _ _ hok (fun x hx => habs x (List.mem_cons_of_mem _ hx))
          (by rw [mapGet_mapSet_ne _ _ _ _ hkn]; exact hacc)
      | none =>
        rw [hk] at hok
        exact ih _ _ hok (fun x hx => habs x (List.mem_cons_of_mem _ hx)) hacc
    | str x0 =>
      simp only [buildMetricMapGo] at hok
      cases hk : metricNameOf (Json.str x0) with
      | some k =>
        rw [hk] at hok
        have hkn : ¬ name = k := fun hc => habs _ (List.mem_cons_self _ _) (hc ▸ hk)
        exact ih _ _ hok (fun x hx => habs x (List.mem_cons_of_mem _ hx))
          (by rw [mapGet_mapSet_ne _ _ _ _ hkn]; exact hacc)
      | none =>
        rw [hk] at hok
        exact ih _ _ hok (fun x hx => habs x (List.mem_cons_of_mem _ hx)) hacc
    | arr xs =>
      simp only [buildMetricMapGo] at hok
      cases hk : metricNameOf (Json.arr xs) with
      | some k =>
        rw [hk] at hok
        have hkn : ¬ name = k := fun hc => habs _ (List.mem_cons_self _ _) (hc ▸ hk)
        exact ih _ _ hok (fun x hx => habs x (List.mem_cons_of_mem _ hx))
          (by rw [mapGet_mapSet_ne _ _ _ _ hkn]; exact hacc)
      | none =>
        rw [hk] at hok
        exact ih _ _ hok (fun x hx => habs x (List.mem_cons_of_mem _ hx)) hacc
    | obj fs =>
      simp only [buildMetricMapGo] at hok
      cases hk : metricNameOf (Json.obj fs) with
      | some k =>
        rw [hk] at hok
        have hkn : ¬ name = k := fun hc => habs _ (List.mem_cons_self _ _) (hc ▸ hk)
        exact ih _ _ hok (fun x hx => habs x (List.mem_cons_of_mem _ hx))
          (by rw [mapGet_mapSet_ne _ _ _ _ hkn]; exact hacc)
      | none =>
        rw [hk] at hok
        exact ih _ _ hok (fun x hx => habs x (List.mem_cons_of_mem _ hx)) hacc

theorem ignored_entry_step (m : List (String × Json)) (e : Json) (s : String)
    (post : List Json) (hs : metricNameOf e = some s) :
    buildMetricMapGo m (e :: post) = buildMetricMapGo (mapSet m s e) post := by
  cases e with
  | null => simp [metricNameOf] at hs
  | bool b => simp [metricNameOf] at hs
  | num x => simp [metricNameOf] at hs
  | str x => simp [metricNameOf] at hs
  | arr xs => simp [metricNameOf] at hs
  | obj fs =>
    simp only [buildMetricMapGo]
    rw [hs]

/-- Claim C6, corrected: metric entries whose names are not among the
looked-up metric names never affect the record's metric fields; an expected
non-boolean metric name (`est_annual_revenue`, `est_yoy_growth`,
`reputation`) that is absent resolves to the sentinel `"Unknown"`, while
the boolean metrics `pe_backed` and `can_accommodate_allocation` resolve to
`"No"` when absent and always render as exactly one of the two labels
`"Yes"`/`"No"`. -/
theorem metrics_lookup_behavior :
    (∀ (pre post : List Json) (e : Json) (s : String),
        metricNameOf e = some s → ¬ s ∈ expectedMetricNames →
        (buildMetricMap (pre ++ e :: post)).map metricFieldsOf
          = (buildMetricMap (pre ++ post)).map metricFieldsOf)
    ∧ (∀ mm, mapGet mm "est_annual_revenue" = none →
        (metricFieldsOf mm).est_annual_revenue = "Unknown")
    ∧ (∀ mm, mapGet mm "est_yoy_growth" = none →
        (metricFieldsOf mm).est_yoy_growth = "Unknown")
    ∧ (∀ mm, mapGet mm "reputation" = none →
        (metricFieldsOf mm).good_reputation = "Unknown")
    ∧ (∀ mm, mapGet mm "pe_backed" = none →
        (metricFieldsOf mm).pe_backed = "No")
    ∧ (∀ mm, mapGet mm "can_accommodate_allocation" = none →
        (metricFieldsOf mm).can_accommodate_allocation = "No")
    ∧ (∀ mm, (metricFieldsOf mm).pe_backed = "Yes" ∨ (metricFieldsOf mm).pe_backed = "No")
    ∧ (∀ mm, (metricFieldsOf mm).can_accommodate_allocation = "Yes"
        ∨ (metricFieldsOf mm).can_accommodate_allocation = "No")
    ∧ (∀ entries mm name, buildMetricMap entries = Except.ok mm →
        (∀ e ∈ entries, ¬ metricNameOf e = some name) → mapGet mm name = none) := by
  refine ⟨?_, ?_, ?_, ?_, ?_, ?_, ?_, ?_, ?_⟩
  · intro pre post e s hs hsn
    unfold buildMetricMap
    rw [buildGo_append pre [] (e :: post), buildGo_append pre [] post]
    cases hpre : buildMetricMapGo [] pre with
    | error err => rfl
    | ok m =>
      show Except.map metricFieldsOf (buildMetricMapGo m (e :: post))
        = Except.map metricFieldsOf (buildMetricMapGo m post)
      rw [ignored_entry_step m e s post hs]
      have hagree : mapsAgreeOnExpected (mapSet m s e) m := by
        intro n hn
        exact mapGet_mapSet_ne _ _ _ _ (fun hc => hsn (hc ▸ hn))
      have hrel := buildGo_rel post (mapSet m s e) m hagree
      cases hA : buildMetricMapGo (mapSet m s e) post with
      | error e1 =>
        cases hB : buildMetricMapGo m post with
        | error e2 => rfl
        | ok m2 =>
          rw [hA, hB] at hrel
          exact (hrel : False).elim
      | ok m1 =>
        cases hB : buildMetricMapGo m post with
        | error e2 =>
          rw [hA, hB] at hrel
          exact (hrel : False).elim
        | ok m2 =>
          rw [hA, hB] at hrel
          simp only [Except.map]
          rw [metricFieldsOf_congr _ _ hrel]
  · intro mm h
    simp only [metricFieldsOf, metricValueOf, h]
  · intro mm h
    simp only [metricFieldsOf, metricValueOf, h]
  · intro mm h
    simp only [metricFieldsOf, metricValueOf, h]
  · intro mm h
    simp only [metricFieldsOf, boolMetricOf, h]
  · intro mm h
    simp only [metricFieldsOf, boolMetricOf, h]
  · intro mm
    simp only [metricFieldsOf, boolMetricOf]
    split
    · exact Or.inr rfl
    · split
      · exact Or.inl rfl
      · exact Or.inr rfl
  · intro mm
    simp only [metricFieldsOf, boolMetricOf]
    split
    · exact Or.inr rfl
    · split
      · exact Or.inl rfl
      · exact Or.inr rfl
  · intro entries mm name hok habs
    exact buildGo_absent_name name entries [] mm hok habs rfl

/-- Claim C6 counterexample: with an empty parsed metrics list the
`pe_backed` field is `"No"`, not the sentinel `"Unknown"` the claim
requires for every absent expected metric name. -/
theorem absent_pe_backed_not_unknown :
    (transformCSVToCompany c6Row).map (fun c => c.pe_backed) = Except.ok "No"
    ∧ ¬ (transformCSVToCompany c6Row).map (fun c => c.pe_backed) = Except.ok "Unknown" := by
  refine ⟨rfl, ?_⟩
  intro h
  rw [show (transformCSVToCompany c6Row).map (fun c => c.pe_backed) = Except.ok "No" from rfl] at h
  injection h with h2
  exact absurd h2 (by decide)

theorem metrics_lookup_behavior_witness :
    (buildMetricMap [Json.obj [("metric_name", Json.str "frobnicate")]]).map metricFieldsOf
      = (buildMetricMap []).map metricFieldsOf
    ∧ (metricFieldsOf []).est_annual_revenue = "Unknown"
    ∧ (metricFieldsOf []).pe_backed = "No" := by
  have h := metrics_lookup_behavior
  exact ⟨h.1 [] [] (Json.obj [("metric_name", Json.str "frobnicate")]) "frobnicate" rfl
      (by simp [expectedMetricNames]),
    h.2.1 [] rfl,
    h.2.2.2.2.1 [] rfl⟩

/-! ## Filtering lemmas -/

theorem listContains_iff (l p : List Char) : listContains l p = true ↔ p <:+: l := by
  induction l with
  | nil =>
    unfold listContains
    by_cases hp : p.isPrefixOf ([] : List Char) = true
    · rw [if_pos hp]
      simp only [true_iff]
      exact ( List.isPrefixOf_iff_prefix.mp hp).isInfix
    · rw [if_neg hp]
      constructor
      · intro hcontra
        simp at hcontra
      · intro hinf
        refine absurd ( List.isPrefixOf_iff_prefix.mpr ?_) hp
        rw [List.infix_nil.mp hinf]
  | cons a t ih =>
    unfold listContains
    by_cases hp : p.isPrefixOf (a :: t) = true
    · rw [if_pos hp]
      simp only [true_iff]
      exact ( List.isPrefixOf_iff_prefix.mp hp).isInfix
    · rw [if_neg hp]
      show listContains t p = true ↔ _
      rw [ih]
      constructor
      · exact fun h => List.infix_cons h
      · intro h
        rcases List.infix_cons_iff.mp h with h1 | h1
        · exact absurd ( List.isPrefixOf_iff_prefix.mpr h1) hp
        · exact h1

theorem cellMatches_iff (v : CellValue) (fv : String) :
    cellMatches v fv = true ↔ cellMatchesSpec v fv := by
  cases v with
  | str s => exact listContains_iff _ _
  | list xs =>
    show xs.any (fun item => strIncludes item fv) = true ↔ _
    rw [List.any_eq_true]
    unfold cellMatchesSpec
    constructor
    · rintro ⟨x, hx, hc⟩
      exact ⟨x, hx, (listContains_iff _ _).mp hc⟩
    · rintro ⟨x, hx, hc⟩
      exact ⟨x, hx, (listContains_iff _ _).mpr hc⟩

theorem mem_filterFold (filters : Filters) (fs : List FieldKey) :
    ∀ (companies : List Company) (c : Company),
    (c ∈ fs.foldl
        (fun result f =>
          if filters f = "" then result
          else result.filter (fun c => cellMatches (c.get f) (filters f)))
        companies
      ↔ c ∈ companies
        ∧ ∀ f ∈ fs, ¬ filters f = "" → cellMatches (c.get f) (filters f) = true) := by
  induction fs with
  | nil =>
    intro companies c
    simp
  | cons f t ih =>
    intro companies c
    rw [List.foldl_cons]
    by_cases hf : filters f = ""
    · rw [if_pos hf, ih]
      constructor
      · rintro ⟨h1, h2⟩
        refine ⟨h1, fun g hg hge => ?_⟩
        rcases List.mem_cons.mp hg with rfl | hg2
        · exact absurd hf hge
        · exact h2 g hg2 hge
      · rintro ⟨h1, h2⟩
        exact ⟨h1, fun g hg => h2 g (List.mem_cons_of_mem _ hg)⟩
    · rw [if_neg hf, ih]
      simp only [List.mem_filter]
      constructor
      · rintro ⟨⟨h1, hm⟩, h2⟩
        refine ⟨h1, fun g hg hge => ?_⟩
        rcases List.mem_cons.mp hg with rfl | hg2
        · exact hm
        · exact h2 g hg2 hge
      · rintro ⟨h1, h2⟩
        exact ⟨⟨h1, h2 f (List.mem_cons_self _ _) hf⟩,
          fun g hg => h2 g (List.mem_cons_of_mem _ hg)⟩

theorem mem_allFields (f : FieldKey) : f ∈ allFields := by
  cases f <;> simp [allFields]

/-- Claim C2: a record is in the filtered result iff it is in the input set
and, for every column whose filter text is nonempty, the record's value in
that column matches case-insensitively as a substring — a list-valued field
matching when at least one of its elements contains the filter text. -/
theorem filter_mem_iff (filters : Filters) (companies : List Company) (c : Company) :
    c ∈ filterStep filters companies
      ↔ c ∈ companies
        ∧ ∀ f : FieldKey, ¬ filters f = "" → cellMatchesSpec (c.get f) (filters f) := by
  unfold filterStep
  rw [mem_filterFold]
  constructor
  · rintro ⟨h1, h2⟩
    exact ⟨h1, fun f hf => (cellMatches_iff _ _).mp (h2 f (mem_allFields f) hf)⟩
  · rintro ⟨h1, h2⟩
    exact ⟨h1, fun f _ hf => (cellMatches_iff _ _).mpr (h2 f hf)⟩

/-! ## Sorting lemmas -/

theorem sorted_perm_unique {α : Type} (r : α → α → Prop) :
    ∀ (l1 l2 : List α), l1.Perm l2 → l1.Pairwise r → l2.Pairwise r →
    (∀ a ∈ l1, ∀ b ∈ l1, r a b → r b a → a = b) → l1 = l2 := by
  intro l1
  induction l1 with
  | nil =>
    intro l2 hp _ _ _
    exact hp.nil_eq
  | cons a t ih =>
    intro l2 hp hs1 hs2 hanti
    cases l2 with
    | nil =>
      have := hp.symm.nil_eq
      cases this
    | cons b t2 =>
      by_cases hab : a = b
      · subst hab
        rw [ih t2 hp.cons_inv (List.pairwise_cons.mp hs1).2 (List.pairwise_cons.mp hs2).2
          (fun x hx y hy => hanti x (List.mem_cons_of_mem _ hx) y (List.mem_cons_of_mem _ hy))]
      · have hain : a ∈ b :: t2 := hp.subset (List.mem_cons_self a t)
        have hbin : b ∈ a :: t := hp.symm.subset (List.mem_cons_self b t2)
        have hat2 : a ∈ t2 := by
          rcases List.mem_cons.mp hain with h | h
          · exact absurd h hab
          · exact h
        have hbt : b ∈ t := by
          rcases List.mem_cons.mp hbin with h | h
          · exact absurd h.symm hab
          · exact h
        have hrab : r a b := (List.pairwise_cons.mp hs1).1 b hbt
        have hrba : r b a := (List.pairwise_cons.mp hs2).1 a hat2
        exact absurd (hanti a (List.mem_cons_self a t) b (List.mem_cons_of_mem _ hbt) hrab hrba) hab

/-- Claim C9: the descending comparator is the negation of the ascending
one, and for every consistent model of `localeCompare` and every record
list on whose sort column no two records compare equal, sorting descending
yields exactly the reverse of the ascending sequence. -/
theorem sort_desc_reverses_asc (lc : String → String → Int)
    (htrans : ∀ x y z, lc x y ≤ 0 → lc y z ≤ 0 → lc x z ≤ 0)
    (htot : ∀ x y, lc x y ≤ 0 ∨ lc y x ≤ 0)
    (hsign : ∀ x y, lc x y ≤ 0 ↔ 0 ≤ lc y x)
    (col : FieldKey) (l : List Company)
    (hnoties : ∀ a ∈ l, ∀ b ∈ l, lc (sortKeyOf a col) (sortKeyOf b col) = 0 → a = b) :
    (∀ a b, jsComparator lc ⟨col, SortDir.desc⟩ a b
        = - jsComparator lc ⟨col, SortDir.asc⟩ a b)
    ∧ sortStep lc ⟨col, SortDir.desc⟩ l = (sortStep lc ⟨col, SortDir.asc⟩ l).reverse := by
  refine ⟨fun a b => rfl, ?_⟩
  have hD_iff : ∀ a b : Company,
      (jsComparator lc ⟨col, SortDir.desc⟩ a b ≤ 0)
        ↔ (jsComparator lc ⟨col, SortDir.asc⟩ b a ≤ 0) := by
    intro a b
    show (-(lc (sortKeyOf a col) (sortKeyOf b col)) ≤ 0) ↔ _
    rw [neg_nonpos]
    exact (hsign (sortKeyOf b col) (sortKeyOf a col)).symm
  haveI instTotA : IsTotal Company (fun a b => jsComparator lc ⟨col, SortDir.asc⟩ a b ≤ 0) :=
    ⟨fun a b => htot _ _⟩
  haveI instTransA : IsTrans Company (fun a b => jsComparator lc ⟨col, SortDir.asc⟩ a b ≤ 0) :=
    ⟨fun a b c hab hbc => htrans _ _ _ hab hbc⟩
  haveI instTotD : IsTotal Company (fun a b => jsComparator lc ⟨col, SortDir.desc⟩ a b ≤ 0) :=
    ⟨fun a b => by
      rw [hD_iff a b, hD_iff b a]
      exact (htot _ _).symm⟩
  haveI instTransD : IsTrans Company (fun a b => jsComparator lc ⟨col, SortDir.desc⟩ a b ≤ 0) :=
    ⟨fun a b c hab hbc => by
      rw [hD_iff a c]
      rw [hD_iff a b] at hab
      rw [hD_iff b c] at hbc
      exact htrans _ _ _ hbc hab⟩
  have hpermA : (sortStep lc ⟨col, SortDir.asc⟩ l).Perm l := List.perm_insertionSort _ l
  have hpermD : (sortStep lc ⟨col, SortDir.desc⟩ l).Perm l := List.perm_insertionSort _ l
  have hsortedA : (sortStep lc ⟨col, SortDir.asc⟩ l).Pairwise
      (fun a b => jsComparator lc ⟨col, SortDir.asc⟩ a b ≤ 0) :=
    List.sorted_insertionSort _ l
  have hsortedD : (sortStep lc ⟨col, SortDir.desc⟩ l).Pairwise
      (fun a b => jsComparator lc ⟨col, SortDir.desc⟩ a b ≤ 0) :=
    List.sorted_insertionSort _ l
  have hsortedDrev : (sortStep lc ⟨col, SortDir.desc⟩ l).reverse.Pairwise
      (fun a b => jsComparator lc ⟨col, SortDir.asc⟩ a b ≤ 0) := by
    rw [List.pairwise_reverse]
    exact hsortedD.imp (fun hab => by
      rw [hD_iff] at hab
      exact hab)
  have hperm : (sortStep lc ⟨col, SortDir.asc⟩ l).Perm
      (sortStep lc ⟨col, SortDir.desc⟩ l).reverse :=
    (hpermA.trans hpermD.symm).trans (List.reverse_perm _).symm
  have hanti : ∀ a ∈ sortStep lc ⟨col, SortDir.asc⟩ l,
      ∀ b ∈ sortStep lc ⟨col, SortDir.asc⟩ l,
      jsComparator lc ⟨col, SortDir.asc⟩ a b ≤ 0 →
      jsComparator lc ⟨col, SortDir.asc⟩ b a ≤ 0 → a = b := by
    intro a ha b hb hab hba
    have hal : a ∈ l := hpermA.subset ha
    have hbl : b ∈ l := hpermA.subset hb
    have h0 : 0 ≤ lc (sortKeyOf a col) (sortKeyOf b col) :=
      (hsign (sortKeyOf b col) (sortKeyOf a col)).mp hba
    exact hnoties a hal b hbl (le_antisymm hab h0)
  have huniq := sorted_perm_unique
    (fun a b => jsComparator lc ⟨col, SortDir.asc⟩ a b ≤ 0)
    (sortStep lc ⟨col, SortDir.asc⟩ l)
    (sortStep lc ⟨col, SortDir.desc⟩ l).reverse
    hperm hsortedA hsortedDrev hanti
  rw [huniq, List.reverse_reverse]

theorem sort_desc_reverses_asc_witness :
    sortStep lcLen ⟨FieldKey.company_name, SortDir.desc⟩
        [namedCompany "A", namedCompany "BB"]
      = (sortStep lcLen ⟨FieldKey.company_name, SortDir.asc⟩
          [namedCompany "A", namedCompany "BB"]).reverse := by
  have h := sort_desc_reverses_asc lcLen
    (fun x y z => by unfold lcLen; omega)
    (fun x y => by unfold lcLen; omega)
    (fun x y => by unfold lcLen; omega)
    FieldKey.company_name
    [namedCompany "A", namedCompany "BB"]
    (by decide)
  exact h.2

/-- Claim C10: the visible sequence is computed from the source records,
filter state and sort state only — replacing the override map (and the
verification map) with any other values changes neither the membership nor
the order of `filteredAndSortedCompanies`, and the export is exactly the
override layer mapped over that same sequence. -/
theorem view_independent_of_overrides (lc : String → String → Int) (s : TableState)
    (e : Overrides) (v : VerMap) :
    filteredAndSortedCompanies lc { s with cellEdits := e, verifications := v }
      = filteredAndSortedCompanies lc s
    ∧ exportRows lc { s with cellEdits := e }
      = (filteredAndSortedCompanies lc s).map (exportRow e) :=
  ⟨rfl, rfl⟩

/-! ## Export row lookup lemmas -/

theorem rowVal_go (r : List (String × String)) (k : String) :
    ∀ acc, r.foldl (fun acc p => if p.fst = k then some p.snd else acc) acc
      = olast (rowVal r k) acc := by
  induction r with
  | nil => intro acc; rfl
  | cons p t ih =>
    intro acc
    rw [List.foldl_cons, ih]
    have hr : rowVal (p :: t) k
        = olast (rowVal t k) (if p.fst = k then some p.snd else none) := by
      show List.foldl (fun acc p => if p.fst = k then some p.snd else acc) none (p :: t)
        = olast (rowVal t k) (if p.fst = k then some p.snd else none)
      rw [List.foldl_cons, ih]
    rw [hr]
    cases rowVal t k with
    | some v => rfl
    | none => by_cases hp : p.fst = k <;> simp [olast, hp]

theorem rowVal_append (r1 r2 : List (String × String)) (k : String) :
    rowVal (r1 ++ r2) k = olast (rowVal r2 k) (rowVal r1 k) := by
  show List.foldl (fun acc p => if p.fst = k then some p.snd else acc) none (r1 ++ r2)
    = olast (rowVal r2 k) (rowVal r1 k)
  rw [List.foldl_append, rowVal_go]
  rfl

theorem rowVal_not_mem (r : List (String × String)) (k : String)
    (h : ∀ p ∈ r, ¬ p.fst = k) : rowVal r k = none := by
  induction r with
  | nil => rfl
  | cons p t ih =>
    unfold rowVal
    rw [List.foldl_cons]
    rw [if_neg (h p (List.mem_cons_self p t))]
    exact ih (fun q hq => h q (List.mem_cons_of_mem p hq))

theorem rowVal_exportRow_of_head (edits : Overrides) (c : Company) (k : String)
    (hk : k ∈ exportFixedKeys)
    (hcd : ∀ p ∈ contactDataOf c.contact_info, ¬ p.fst ∈ exportFixedKeys)
    (hosha : rowVal (exportRowOsha edits c) k = none) :
    rowVal (exportRow edits c) k = rowVal (exportRowHead edits c) k := by
  unfold exportRow
  rw [rowVal_append, rowVal_append, hosha,
      rowVal_not_mem (contactDataOf c.contact_info) k
        (fun p hp hc => hcd p hp (hc ▸ hk))]
  rfl

theorem rowVal_exportRow_of_osha (edits : Overrides) (c : Company) (k : String) (v : String)
    (hosha : rowVal (exportRowOsha edits c) k = some v) :
    rowVal (exportRow edits c) k = some v := by
  unfold exportRow
  rw [rowVal_append, hosha]
  rfl

/-- Claim C3, corrected: the export emits exactly one row per record of the
current filtered-and-sorted sequence, in that order, and consults no
verification state; the directly exported scalar columns (`company_name`,
`state`, `investment_grade`, the metric values, `website`, the OSHA
columns) carry the override stored for (company, field) when one exists and
the record's original value otherwise — but the summary and citation
columns always export the record's original value even when an override for
them is stored (under the hypothesis that the dynamic contact columns do
not collide with the fixed column keys). -/
theorem export_structure (lc : String → String → Int) (s : TableState) :
    exportRows lc s = (filteredAndSortedCompanies lc s).map (exportRow s.cellEdits)
    ∧ (∀ v, exportRows lc { s with verifications := v } = exportRows lc s)
    ∧ (∀ (edits : Overrides) (c : Company),
        (∀ p ∈ contactDataOf c.contact_info, ¬ p.fst ∈ exportFixedKeys) →
        (rowVal (exportRow edits c) "company_name" = some (getValue edits c FieldKey.company_name)
        ∧ rowVal (exportRow edits c) "state" = some (getValue edits c FieldKey.state)
        ∧ rowVal (exportRow edits c) "investment_grade" = some (getValue edits c FieldKey.investment_grade)
        ∧ rowVal (exportRow edits c) "est_annual_revenue" = some (getValue edits c FieldKey.est_annual_revenue)
        ∧ rowVal (exportRow edits c) "est_yoy_growth" = some (getValue edits c FieldKey.est_yoy_growth)
        ∧ rowVal (exportRow edits c) "pe_backed" = some (getValue edits c FieldKey.pe_backed)
        ∧ rowVal (exportRow edits c) "can_accommodate_allocation" = some (getValue edits c FieldKey.can_accommodate_allocation)
        ∧ rowVal (exportRow edits c) "website" = some (getValue edits c FieldKey.website)
        ∧ rowVal (exportRow edits c) "investment_grade_summary" = some c.investment_grade_summary
        ∧ rowVal (exportRow edits c) "investment_grade_citations" = some (formatCitations c.investment_grade_citations)
        ∧ rowVal (exportRow edits c) "est_annual_revenue_citations" = some (formatCitations c.est_annual_revenue_citations)
        ∧ rowVal (exportRow edits c) "est_yoy_growth_citations" = some (formatCitations c.est_yoy_growth_citations)
        ∧ rowVal (exportRow edits c) "pe_backed_citations" = some (formatCitations c.pe_backed_citations)
        ∧ rowVal (exportRow edits c) "can_accommodate_allocation_citations" = some (formatCitations c.can_accommodate_allocation_citations)))
    ∧ (∀ (edits : Overrides) (c : Company),
        rowVal (exportRow edits c) "osha_annual_average_employees_2020" = some (getValue edits c FieldKey.annual_average_employees_2020)
        ∧ rowVal (exportRow edits c) "osha_annual_average_employees_2021" = some (getValue edits c FieldKey.annual_average_employees_2021)
        ∧ rowVal (exportRow edits c) "osha_annual_average_employees_2022" = some (getValue edits c FieldKey.annual_average_employees_2022)
        ∧ rowVal (exportRow edits c) "osha_annual_average_employees_2023" = some (getValue edits c FieldKey.annual_average_employees_2023)
        ∧ rowVal (exportRow edits c) "osha_annual_average_employees_2024" = some (getValue edits c FieldKey.annual_average_employees_2024)
        ∧ rowVal (exportRow edits c) "osha_total_hours_worked_2020" = some (getValue edits c FieldKey.total_hours_worked_2020)
        ∧ rowVal (exportRow edits c) "osha_total_hours_worked_2021" = some (getValue edits c FieldKey.total_hours_worked_2021)
        ∧ rowVal (exportRow edits c) "osha_total_hours_worked_2022" = some (getValue edits c FieldKey.total_hours_worked_2022)
        ∧ rowVal (exportRow edits c) "osha_total_hours_worked_2023" = some (getValue edits c FieldKey.total_hours_worked_2023)
        ∧ rowVal (exportRow edits c) "osha_total_hours_worked_2024" = some (getValue edits c FieldKey.total_hours_worked_2024)) := by
  refine ⟨rfl, fun v => rfl, ?_, ?_⟩
  · intro edits c hcd
    refine ⟨?_, ?_, ?_, ?_, ?_, ?_, ?_, ?_, ?_, ?_, ?_, ?_, ?_, ?_⟩
    · rw [rowVal_exportRow_of_head edits c _ (by simp [exportFixedKeys]) hcd
          (by simp [exportRowOsha, rowVal, List.foldl])]
      simp [exportRowHead, rowVal, List.foldl]
    · rw [rowVal_exportRow_of_head edits c _ (by simp [exportFixedKeys]) hcd
          (by simp [exportRowOsha, rowVal, List.foldl])]
      simp [exportRowHead, rowVal, List.foldl]
    · rw [rowVal_exportRow_of_head edits c _ (by simp [exportFixedKeys]) hcd
          (by simp [exportRowOsha, rowVal, List.foldl])]
      simp [exportRowHead, rowVal, List.foldl]
    · rw [rowVal_exportRow_of_head edits c _ (by simp [exportFixedKeys]) hcd
          (by simp [exportRowOsha, rowVal, List.foldl])]
      simp [exportRowHead, rowVal, List.foldl]
    · rw [rowVal_exportRow_of_head edits c _ (by simp [exportFixedKeys]) hcd
          (by simp [exportRowOsha, rowVal, List.foldl])]
      simp [exportRowHead, rowVal, List.foldl]
    · rw [rowVal_exportRow_of_head edits c _ (by simp [exportFixedKeys]) hcd
          (by simp [exportRowOsha, rowVal, List.foldl])]
      simp [exportRowHead, rowVal, List.foldl]
    · rw [rowVal_exportRow_of_head edits c _ (by simp [exportFixedKeys]) hcd
          (by simp [exportRowOsha, rowVal, List.foldl])]
      simp [exportRowHead, rowVal, List.foldl]
    · rw [rowVal_exportRow_of_head edits c _ (by simp [exportFixedKeys]) hcd
          (by simp [exportRowOsha, rowVal, List.foldl])]
      simp [exportRowHead, rowVal, List.foldl]
    · rw [rowVal_exportRow_of_head edits c _ (by simp [exportFixedKeys]) hcd
          (by simp [exportRowOsha, rowVal, List.foldl])]
      simp [exportRowHead, rowVal, List.foldl]
    · rw [rowVal_exportRow_of_head edits c _ (by simp [exportFixedKeys]) hcd
          (by simp [exportRowOsha, rowVal, List.foldl])]
      simp [exportRowHead, rowVal, List.foldl]
    · rw [rowVal_exportRow_of_head edits c _ (by simp [exportFixedKeys]) hcd
          (by simp [exportRowOsha, rowVal, List.foldl])]
      simp [exportRowHead, rowVal, List.foldl]
    · rw [rowVal_exportRow_of_head edits c _ (by simp [exportFixedKeys]) hcd
          (by simp [exportRowOsha, rowVal, List.foldl])]
      simp [exportRowHead, rowVal, List.foldl]
    · rw [rowVal_exportRow_of_head edits c _ (by simp [exportFixedKeys]) hcd
          (by simp [exportRowOsha, rowVal, List.foldl])]
      simp [exportRowHead, rowVal, List.foldl]
    · rw [rowVal_exportRow_of_head edits c _ (by simp [exportFixedKeys]) hcd
          (by simp [exportRowOsha, rowVal, List.foldl])]
      simp [exportRowHead, rowVal, List.foldl]
  · intro edits c
    refine ⟨?_, ?_, ?_, ?_, ?_, ?_, ?_, ?_, ?_, ?_⟩
    · exact rowVal_exportRow_of_osha edits c _ _
        (by simp [exportRowOsha, rowVal, List.foldl])
    · exact rowVal_exportRow_of_osha edits c _ _
        (by simp [exportRowOsha, rowVal, List.foldl])
    · exact rowVal_exportRow_of_osha edits c _ _
        (by simp [exportRowOsha, rowVal, List.foldl])
    · exact rowVal_exportRow_of_osha edits c _ _
        (by simp [exportRowOsha, rowVal, List.foldl])
    · exact rowVal_exportRow_of_osha edits c _ _
        (by simp [exportRowOsha, rowVal, List.foldl])
    · exact rowVal_exportRow_of_osha edits c _ _
        (by simp [exportRowOsha, rowVal, List.foldl])
    · exact rowVal_exportRow_of_osha edits c _ _
        (by simp [exportRowOsha, rowVal, List.foldl])
    · exact rowVal_exportRow_of_osha edits c _ _
        (by simp [exportRowOsha, rowVal, List.foldl])
    · exact rowVal_exportRow_of_osha edits c _ _
        (by simp [exportRowOsha, rowVal, List.foldl])
    · exact rowVal_exportRow_of_osha edits c _ _
        (by simp [exportRowOsha, rowVal, List.foldl])

/-- Claim C3 counterexample: an override stored for
`("Acme", "investment_grade_summary")` is ignored by the export — the
exported `investment_grade_summary` column still carries the original
value. -/
theorem export_ignores_summary_override :
    editLookup c3Edits "Acme" "investment_grade_summary" = some "EDITED"
    ∧ rowVal (exportRow c3Edits c3Company) "investment_grade_summary" = some "orig summary"
    ∧ ¬ ("orig summary" = "EDITED") := by
  refine ⟨rfl, rfl, by decide⟩

theorem export_structure_witness :
    rowVal (exportRow c3Edits c3Company) "state"
      = some (getValue c3Edits c3Company FieldKey.state)
    ∧ rowVal (exportRow c3Edits c3Company) "osha_annual_average_employees_2020"
      = some (getValue c3Edits c3Company FieldKey.annual_average_employees_2020) := by
  have h := export_structure lcLen
    { companies := [c3Company], filters := fun _ => "",
      sortStatus := ⟨FieldKey.company_name, SortDir.asc⟩,
      cellEdits := c3Edits, verifications := [] }
  have hcd : ∀ p ∈ contactDataOf c3Company.contact_info, ¬ p.fst ∈ exportFixedKeys := by
    intro p hp
    rw [show contactDataOf c3Company.contact_info = [] from rfl] at hp
    cases hp
  exact ⟨(h.2.2.1 c3Edits c3Company hcd).2.1, (h.2.2.2 c3Edits c3Company).1⟩

/-- Claim C7 counterexample: a present persisted `companyTableColumns` blob
(encoding the empty column list) is ignored — the initializer returns the
built-in default list regardless of the store. -/
theorem column_settings_ignore_storage :
    initColumnSettings (fun k => if k = "companyTableColumns" then some "[]" else none)
      = columnConfigs
    ∧ ¬ (columnConfigs = []) := by
  refine ⟨rfl, ?_⟩
  intro h
  simp [columnConfigs] at h

/-- Claim C7, corrected: the verification-flag map and the override map are
initialized from their persisted local-storage blobs when present (empty
when absent), but the column-settings list is always the version-controlled
default `columnConfigs` — persisted column state is never read at
startup. -/
theorem init_state_from_storage :
    (∀ store : Storage, initColumnSettings store = columnConfigs)
    ∧ (∀ store : Storage, store "companyTableVerifications" = none →
        initVerifications store = Except.ok [])
    ∧ (∀ (store : Storage) (s : String) (j : Json) (m : VerMap),
        store "companyTableVerifications" = some s → ¬ s = "" →
        jsonParse s = some j → decodeVerMap j = some m →
        initVerifications store = Except.ok m)
    ∧ (∀ store : Storage, store "companyTableEdits" = none →
        initCellEdits store = Except.ok [])
    ∧ (∀ (store : Storage) (s : String) (j : Json) (m : Overrides),
        store "companyTableEdits" = some s → ¬ s = "" →
        jsonParse s = some j → decodeEditsMap j = some m →
        initCellEdits store = Except.ok m) := by
  refine ⟨fun store => rfl, ?_, ?_, ?_, ?_⟩
  · intro store h
    unfold initVerifications
    rw [h]
  · intro store s j m h hs hj hm
    unfold initVerifications
    rw [h]
    show (if s = "" then Except.ok [] else
      match jsonParse s with
      | none => Except.error ()
      | some j =>
        match decodeVerMap j with
        | some m => Except.ok m
        | none => Except.error ()) = Except.ok m
    rw [if_neg hs, hj]
    show (match decodeVerMap j with
      | some m => Except.ok m
      | none => Except.error ()) = Except.ok m
    rw [hm]
  · intro store h
    unfold initCellEdits
    rw [h]
  · intro store s j m h hs hj hm
    unfold initCellEdits
    rw [h]
    show (if s = "" then Except.ok [] else
      match jsonParse s with
      | none => Except.error ()
      | some j =>
        match decodeEditsMap j with
        | some m => Except.ok m
        | none => Except.error ()) = Except.ok m
    rw [if_neg hs, hj]
    show (match decodeEditsMap j with
      | some m => Except.ok m
      | none => Except.error ()) = Except.ok m
    rw [hm]

theorem init_state_from_storage_witness :
    initCellEdits (fun k => if k = "companyTableEdits"
        then some "\x7b\"Acme\":\x7b\"pe_backed\":\"10\"\x7d\x7d" else none)
      = Except.ok [("Acme", [("pe_backed", "10")])]
    ∧ initVerifications (fun k => if k = "companyTableEdits"
        then some "\x7b\"Acme\":\x7b\"pe_backed\":\"10\"\x7d\x7d" else none)
      = Except.ok [] := by
  have h := init_state_from_storage
  refine ⟨?_, ?_⟩
  · exact h.2.2.2.2 _ "\x7b\"Acme\":\x7b\"pe_backed\":\"10\"\x7d\x7d"
      (Json.obj [("Acme", Json.obj [("pe_backed", Json.str "10")])])
      [("Acme", [("pe_backed", "10")])] rfl (by decide) rfl rfl
  · exact h.2.1 _ rfl

theorem filter_mem_iff_witness :
    namedCompany "Acme" ∈ filterStep (fun _ => "") [namedCompany "Acme"] :=
  (filter_mem_iff (fun _ => "") [namedCompany "Acme"] (namedCompany "Acme")).mpr
    ⟨List.mem_singleton.mpr rfl, fun _ hf => absurd rfl hf⟩

theorem view_independent_of_overrides_witness :
    filteredAndSortedCompanies lcLen
        { companies := [c3Company], filters := fun _ => "",
          sortStatus := ⟨FieldKey.company_name, SortDir.asc⟩,
          cellEdits := c3Edits, verifications := [] }
      = filteredAndSortedCompanies lcLen
        { companies := [c3Company], filters := fun _ => "",
          sortStatus := ⟨FieldKey.company_name, SortDir.asc⟩,
          cellEdits := [], verifications := [] } :=
  (view_independent_of_overrides lcLen
    { companies := [c3Company], filters := fun _ => "",
      sortStatus := ⟨FieldKey.company_name, SortDir.asc⟩,
      cellEdits := [], verifications := [] } c3Edits []).1
